import Mathlib

set_option maxHeartbeats 1000000
set_option maxRecDepth 8000

/-!
Verification development for the fmp4-mp4-remuxer core.

The TypeScript sources are embedded shallowly:
* `src/unnamed/part_002` (Mp4BoxParser): byte reads and the generic box walker.
* `src/src/core/FragmentParser.ts`: tfhd/tfdt/trun decoding and sample extraction.
* `src/src/core/Mp4Builder.ts` (TimelineNormalizer half): timeline normalization.
* `src/src/core/Mp4Builder.ts` (builder half): byte-level progressive MP4 emission.

JavaScript numbers are modelled as `Int` (all pipeline values are integers;
`Number.isFinite` is always true in this model), bigints as `Int`/`Nat`, and
`Uint8Array` as `List Nat` (entries below 256 for real inputs; the byte reads
use `getD _ 0`, matching the out-of-range behaviour of typed arrays under the
JS bitwise coercions).
-/

namespace Remux

/-- JS `v >>> 0` (ToUint32) on an integer-valued number or bigint. -/
def toUint32 (v : Int) : Nat := (v % 4294967296).toNat

/-- JS ToInt32 on an integer-valued number. -/
def toInt32 (v : Int) : Int :=
  let u := toUint32 v
  if u < 2147483648 then (u : Int) else (u : Int) - 4294967296

/-- ByteWriter.writeU8: stores `v & 0xff`. -/
def writeU8 (v : Int) : List Nat := [(v % 256).toNat]

/-- ByteWriter.writeU16: two big-endian bytes of the low 16 bits. -/
def writeU16 (v : Int) : List Nat :=
  let u := toUint32 v
  [u / 256 % 256, u % 256]

/-- ByteWriter.writeU24: three big-endian bytes of the low 24 bits. -/
def writeU24 (v : Int) : List Nat :=
  let u := toUint32 v
  [u / 65536 % 256, u / 256 % 256, u % 256]

/-- ByteWriter.writeU32: four big-endian bytes of `v >>> 0`. -/
def writeU32 (v : Int) : List Nat :=
  let u := toUint32 v
  [u / 16777216 % 256, u / 65536 % 256, u / 256 % 256, u % 256]

/-- ByteWriter.writeU64 on a non-negative bigint: high then low 32-bit half. -/
def writeU64 (v : Nat) : List Nat :=
  writeU32 ((v / 4294967296 % 4294967296 : Nat) : Int) ++ writeU32 ((v % 4294967296 : Nat) : Int)

/-- Mp4BoxParser.readU32: big-endian 32-bit read; out-of-range bytes read as 0
(JS bitwise operators coerce `undefined` to 0). -/
def readU32 (data : List Nat) (off : Nat) : Nat :=
  data.getD off 0 * 16777216 + data.getD (off + 1) 0 * 65536 +
    data.getD (off + 2) 0 * 256 + data.getD (off + 3) 0

/-- Mp4BoxParser.readI32: the same 32 bits reinterpreted as signed. -/
def readI32 (data : List Nat) (off : Nat) : Int :=
  toInt32 ((readU32 data off : Nat) : Int)

/-- Mp4BoxParser.readU64: two 32-bit big-endian halves combined as a bigint. -/
def readU64 (data : List Nat) (off : Nat) : Nat :=
  readU32 data off * 4294967296 + readU32 data (off + 4)

/-- Mp4BoxParser.readType: the four type bytes (the JS source turns them into a
string with String.fromCharCode; we keep the code points). -/
def readType (data : List Nat) (off : Nat) : List Nat :=
  [data.getD off 0, data.getD (off + 1) 0, data.getD (off + 2) 0, data.getD (off + 3) 0]

/-- A decoded box header record (Mp4BoxParser `Box`; the JS field `end` is
called `stop` here because `end` is a Lean keyword). -/
structure Box where
  type : List Nat
  start : Nat
  size : Nat
  headerSize : Nat
  stop : Nat
deriving DecidableEq, Repr

/-- Decoding of one box header at `off` (the first half of the parseBoxes loop
body): `.ok none` means the loop breaks before obtaining a size (a 64-bit size
field that does not fit in the range), `.error` is the BoxTooLarge throw, and
`.ok (some (size, headerSize))` is a decoded header. -/
def decodeHeader (data : List Nat) (off endPos : Nat) : Except String (Option (Nat × Nat)) :=
  let size32 := readU32 data off
  if size32 = 1 then
    if endPos < off + 16 then .ok none
    else
      let size64 := readU64 data (off + 8)
      if 9007199254740991 < size64 then .error "Box too large to address safely"
      else .ok (some (size64, 16))
  else if size32 = 0 then .ok (some (endPos - off, 8))
  else .ok (some (size32, 8))

/-- The parseBoxes loop, with explicit fuel to make the recursion structural
(each iteration advances `off` by at least 8 while `off + 8 ≤ endPos`, so fuel
`endPos + 1` always suffices for the calls below). -/
def parseBoxesAux (data : List Nat) (endPos : Nat) : Nat → Nat → Except String (List Box)
  | 0, _ => .ok []
  | fuel + 1, off =>
    if off + 8 ≤ endPos then
      match decodeHeader data off endPos with
      | .error e => .error e
      | .ok none => .ok []
      | .ok (some (size, headerSize)) =>
        if size < headerSize ∨ endPos < off + size then .ok []
        else
          match parseBoxesAux data endPos fuel (off + size) with
          | .error e => .error e
          | .ok rest =>
            .ok ({ type := readType data (off + 4), start := off, size := size,
                   headerSize := headerSize, stop := off + size } :: rest)
    else .ok []

/-- Mp4BoxParser.parseBoxes over a whole buffer (every call site in the core
uses the default range `[0, byteLength)`). -/
def parseBoxes (data : List Nat) : Except String (List Box) :=
  parseBoxesAux data data.length (data.length + 1) 0

/-! ## Data model (Types.ts) -/

/-- Types.ts `Sample`. `data` holds the coded bytes. -/
structure Sample where
  dts : Int
  cts : Int
  duration : Int
  size : Int
  isKeyframe : Bool
  data : List Nat
deriving DecidableEq, Repr

/-- Types.ts `FlattenOptions` (the `debug` / `debugFileLimit` fields only drive
logging and are omitted; `none` is the JS `undefined`). -/
structure FlattenOptions where
  allowTrunDataOffsetFallback : Option Bool := none
  normalizeAcrossFiles : Option Bool := none
deriving DecidableEq, Repr

/-- Types.ts `TrackConfig`. -/
structure TrackConfig where
  trackId : Int
  timescale : Int
  width : Int
  height : Int
  stsd : List Nat
  ftyp : Option (List Nat) := none
deriving DecidableEq, Repr

/-! ## TimelineNormalizer (second half of src/src/core/Mp4Builder.ts) -/

/-- One iteration of the first (monotonization) loop in
`TimelineNormalizer.normalize`: sanitize the fields, shift against the already
processed previous sample, and clamp `cts` up to `dts`. `Number.isFinite` is
identically true in the integer model. -/
def phase1Step (prev : Option Sample) (s : Sample) : Sample :=
  let dts1 := if s.dts < 0 then 0 else s.dts
  let cts1 := if s.cts < 0 then dts1 else s.cts
  let dur1 := if s.duration < 0 then 0 else s.duration
  let s1 : Sample := { s with dts := dts1, cts := cts1, duration := dur1 }
  let s2 :=
    match prev with
    | none => s1
    | some p =>
      let t0 := s1.dts
      let t1 := if t0 < p.dts then p.dts else t0
      let prevEnd := p.dts + max 1 p.duration
      let t2 := if t1 < prevEnd then prevEnd else t1
      let shift := t2 - s1.dts
      if 0 < shift then { s1 with dts := s1.dts + shift, cts := s1.cts + shift } else s1
  if s2.cts < s2.dts then { s2 with cts := s2.dts } else s2

/-- The first loop of `normalize`, threading the processed previous sample. -/
def phase1Loop (prev : Option Sample) : List Sample → List Sample
  | [] => []
  | s :: rest =>
    let s3 := phase1Step prev s
    s3 :: phase1Loop (some s3) rest

/-- The second (duration repair) loop of `normalize`. `prevDur` carries the
already repaired duration of the previous sample (`none` on the first sample);
the Bool is the `discontinuityDetected` flag. The repair of the last sample
reads the previous repaired duration exactly as the in-place JS loop does. -/
def phase2Loop (prevDur : Option Int) : List Sample → List Sample × Bool
  | [] => ([], false)
  | [s] =>
    if s.duration = 0 then
      let d := match prevDur with
        | some pd => max 1 pd
        | none => 1
      ([{ s with duration := d }], false)
    else ([s], false)
  | s :: next :: rest =>
    if s.duration = 0 then
      let delta := next.dts - s.dts
      let d := if 0 < delta then delta else 1
      let r := phase2Loop (some d) (next :: rest)
      ({ s with duration := d } :: r.1, decide (1 < delta) || r.2)
    else
      let r := phase2Loop (some s.duration) (next :: rest)
      (s :: r.1, r.2)

/-- The sort comparator used when `preserveOrder` is not set:
`(a.s.dts - b.s.dts) || (a.s.cts - b.s.cts) || (a.i - b.i)` ascending. -/
def sortLe (a b : Nat × Sample) : Bool :=
  a.2.dts < b.2.dts ||
    (a.2.dts = b.2.dts && (a.2.cts < b.2.cts || (a.2.cts = b.2.cts && a.1 ≤ b.1)))

/-- Insertion step of the sort (the comparator is a strict total order thanks to
the index tiebreak, so any comparison sort computes the same list as JS sort). -/
def insertSorted (x : Nat × Sample) : List (Nat × Sample) → List (Nat × Sample)
  | [] => [x]
  | y :: rest => if sortLe x y then x :: y :: rest else y :: insertSorted x rest

/-- Sorting of the index-tagged samples. -/
def sortPairs : List (Nat × Sample) → List (Nat × Sample)
  | [] => []
  | x :: rest => insertSorted x (sortPairs rest)

/-- The list the two loops of `normalize` run over: the input itself under
`preserveOrder`, otherwise the input sorted by `(dts, cts, original index)`. -/
def normalizeBase (samples : List Sample) (preserveOrder : Bool) : List Sample :=
  if preserveOrder then samples
  else (sortPairs samples.enum).map (·.2)

/-- The intermediate sample list after the first loop of `normalize` (the exact
list the duration-repair loop walks). -/
def phase1List (samples : List Sample) (preserveOrder : Bool) : List Sample :=
  phase1Loop none (normalizeBase samples preserveOrder)

/-- Result record of `TimelineNormalizer.normalize` / `normalizeFragments`. -/
structure NormalizeResult where
  samples : List Sample
  discontinuityDetected : Bool
deriving DecidableEq, Repr

/-- `TimelineNormalizer.normalize`. -/
def normalize (samples : List Sample) (preserveOrder : Bool) : NormalizeResult :=
  let r := phase2Loop none (phase1List samples preserveOrder)
  { samples := r.1, discontinuityDetected := r.2 }

/-- The per-file duration inference loop of
`TimelineNormalizer.inferDurationsWithinFile`. -/
def inferLoop (prevDur : Option Int) : List Sample → List Sample
  | [] => []
  | [s] =>
    if s.duration = 0 then
      [{ s with duration := match prevDur with | some pd => max 1 pd | none => 1 }]
    else [s]
  | s :: next :: rest =>
    if s.duration = 0 then
      let delta := next.dts - s.dts
      let d := if 0 < delta then delta else 1
      { s with duration := d } :: inferLoop (some d) (next :: rest)
    else s :: inferLoop (some s.duration) (next :: rest)

/-- `fileDuration` accumulation: max over `dts + max(0, duration)`, from 0. -/
def fileDurationOf (samples : List Sample) : Int :=
  samples.foldl (fun fd s => let e := s.dts + max 0 s.duration; if fd < e then e else fd) 0

/-- `TimelineNormalizer.inferDurationsWithinFile`. -/
def inferDurationsWithinFile (samples : List Sample) : List Sample × Int :=
  if samples.isEmpty then ([], 0)
  else
    let ordered := inferLoop none samples
    (ordered, fileDurationOf ordered)

/-- Cross-file offsetting of one sample (Phase B). -/
def shiftSample (off : Int) (s : Sample) : Sample :=
  { s with dts := s.dts + off, cts := s.cts + off }

/-- The per-file loop of `normalizeFragments`, threading `timelineOffset`. -/
def fragLoop (acrossFiles : Bool) : List (List Sample) → Int → List Sample
  | [], _ => []
  | f :: rest, off =>
    let inferred := inferDurationsWithinFile f
    if acrossFiles then
      (inferred.1.map (shiftSample off)) ++ fragLoop acrossFiles rest (off + inferred.2)
    else inferred.1 ++ fragLoop acrossFiles rest off

/-- `TimelineNormalizer.normalizeFragments` (always calls `normalize` with
`preserveOrder := true`). -/
def normalizeFragments (fragmentsSamples : List (List Sample)) (opts : FlattenOptions) :
    NormalizeResult :=
  normalize (fragLoop (opts.normalizeAcrossFiles.getD true) fragmentsSamples 0) true

/-! ## Mp4Builder (first half of src/src/core/Mp4Builder.ts)

Box type tags are the ASCII code points the JS source writes with
`writeStr4`. -/

def ftypT : List Nat := [0x66, 0x74, 0x79, 0x70]
def moovT : List Nat := [0x6d, 0x6f, 0x6f, 0x76]
def mvhdT : List Nat := [0x6d, 0x76, 0x68, 0x64]
def trakT : List Nat := [0x74, 0x72, 0x61, 0x6b]
def tkhdT : List Nat := [0x74, 0x6b, 0x68, 0x64]
def mdiaT : List Nat := [0x6d, 0x64, 0x69, 0x61]
def mdhdT : List Nat := [0x6d, 0x64, 0x68, 0x64]
def hdlrT : List Nat := [0x68, 0x64, 0x6c, 0x72]
def minfT : List Nat := [0x6d, 0x69, 0x6e, 0x66]
def vmhdT : List Nat := [0x76, 0x6d, 0x68, 0x64]
def dinfT : List Nat := [0x64, 0x69, 0x6e, 0x66]
def drefT : List Nat := [0x64, 0x72, 0x65, 0x66]
def urlT : List Nat := [0x75, 0x72, 0x6c, 0x20]
def stblT : List Nat := [0x73, 0x74, 0x62, 0x6c]
def sttsT : List Nat := [0x73, 0x74, 0x74, 0x73]
def cttsT : List Nat := [0x63, 0x74, 0x74, 0x73]
def stssT : List Nat := [0x73, 0x74, 0x73, 0x73]
def stszT : List Nat := [0x73, 0x74, 0x73, 0x7a]
def stscT : List Nat := [0x73, 0x74, 0x73, 0x63]
def stcoT : List Nat := [0x73, 0x74, 0x63, 0x6f]
def co64T : List Nat := [0x63, 0x6f, 0x36, 0x34]
def mdatT : List Nat := [0x6d, 0x64, 0x61, 0x74]
def moofT : List Nat := [0x6d, 0x6f, 0x6f, 0x66]
def trafT : List Nat := [0x74, 0x72, 0x61, 0x66]
def tfhdT : List Nat := [0x74, 0x66, 0x68, 0x64]
def tfdtT : List Nat := [0x74, 0x66, 0x64, 0x74]
def trunT : List Nat := [0x74, 0x72, 0x75, 0x6e]
def videT : List Nat := [0x76, 0x69, 0x64, 0x65]
def isomT : List Nat := [0x69, 0x73, 0x6f, 0x6d]
def iso2T : List Nat := [0x69, 0x73, 0x6f, 0x32]
def avc1T : List Nat := [0x61, 0x76, 0x63, 0x31]
def mp41T : List Nat := [0x6d, 0x70, 0x34, 0x31]

/-- Mp4Builder `rle`: run-length encode adjacent equal values. The source
appends at the tail and bumps the last count; this accumulator-based version
computes the same list. -/
def rleAux (acc : List (Nat × Int)) : List Int → List (Nat × Int)
  | [] => acc.reverse
  | v :: rest =>
    match acc with
    | (c, lv) :: accTail =>
      if lv = v then rleAux ((c + 1, lv) :: accTail) rest
      else rleAux ((1, v) :: (c, lv) :: accTail) rest
    | [] => rleAux [(1, v)] rest

def rle (values : List Int) : List (Nat × Int) := rleAux [] values

/-- Mp4Builder `box`: size, four type bytes, payload. -/
def box (type : List Nat) (payload : List Nat) : List Nat :=
  writeU32 ((8 + payload.length : Nat) : Int) ++ type ++ payload

/-- Mp4Builder `fullBox`: version byte and 24-bit flags before the payload. -/
def fullBox (type : List Nat) (version : Int) (flags : Int) (payload : List Nat) : List Nat :=
  box type (writeU8 version ++ writeU24 flags ++ payload)

/-- UTF-8 bytes of the hdlr name "VideoHandler" plus the appended NUL. -/
def videoHandlerName : List Nat :=
  [0x56, 0x69, 0x64, 0x65, 0x6f, 0x48, 0x61, 0x6e, 0x64, 0x6c, 0x65, 0x72, 0x00]

/-- Mp4Builder `mvhd` (version 0; the duration field is `duration >>> 0`,
which `writeU32` applies). -/
def mvhd (timescale : Int) (duration : Int) : List Nat :=
  fullBox mvhdT 0 0
    (writeU32 0 ++ writeU32 0 ++ writeU32 timescale ++ writeU32 duration ++
     writeU32 0x00010000 ++ writeU16 0 ++ writeU16 0 ++ writeU32 0 ++ writeU32 0 ++
     writeU32 0x00010000 ++ writeU32 0 ++ writeU32 0 ++
     writeU32 0 ++ writeU32 0x00010000 ++ writeU32 0 ++
     writeU32 0 ++ writeU32 0 ++ writeU32 0x40000000 ++
     writeU32 0 ++ writeU32 0 ++ writeU32 0 ++ writeU32 0 ++ writeU32 0 ++ writeU32 0 ++
     writeU32 2)

/-- Mp4Builder `tkhd` (version 0, flags 7). -/
def tkhd (trackId : Int) (duration : Int) (width : Int) (height : Int) : List Nat :=
  fullBox tkhdT 0 0x000007
    (writeU32 0 ++ writeU32 0 ++ writeU32 trackId ++ writeU32 0 ++ writeU32 duration ++
     writeU32 0 ++ writeU32 0 ++
     writeU16 0 ++ writeU16 0 ++ writeU16 0 ++ writeU16 0 ++
     writeU32 0x00010000 ++ writeU32 0 ++ writeU32 0 ++
     writeU32 0 ++ writeU32 0x00010000 ++ writeU32 0 ++
     writeU32 0 ++ writeU32 0 ++ writeU32 0x40000000 ++
     writeU32 (width * 65536) ++ writeU32 (height * 65536))

/-- Mp4Builder `mdhd` (version 0). -/
def mdhd (timescale : Int) (duration : Int) : List Nat :=
  fullBox mdhdT 0 0
    (writeU32 0 ++ writeU32 0 ++ writeU32 timescale ++ writeU32 duration ++
     writeU16 0 ++ writeU16 0)

/-- Mp4Builder `hdlr` with handler type vide and name VideoHandler. -/
def hdlrBox : List Nat :=
  fullBox hdlrT 0 0
    (writeU32 0 ++ videT ++ writeU32 0 ++ writeU32 0 ++ writeU32 0 ++ videoHandlerName)

/-- Mp4Builder `vmhd` (flags 1, zero graphics mode and opcolor). -/
def vmhdBox : List Nat :=
  fullBox vmhdT 0 0x000001 (writeU16 0 ++ writeU16 0 ++ writeU16 0 ++ writeU16 0)

/-- Mp4Builder `dref`: one self-referencing url entry. -/
def drefBox : List Nat :=
  fullBox drefT 0 0 (writeU32 1 ++ fullBox urlT 0 0x000001 [])

/-- Mp4Builder `sttsBox`: RLE of the duration list. -/
def sttsBox (durations : List Int) : List Nat :=
  let entries := rle durations
  fullBox sttsT 0 0
    (writeU32 ((entries.length : Nat) : Int) ++
     (entries.map fun e => writeU32 ((e.1 : Nat) : Int) ++ writeU32 e.2).flatten)

/-- Mp4Builder `cttsBox`: absent when every offset is zero; version 1 when any
offset is negative. The JS entry write `(e.value | 0) >>> 0` equals the low 32
bits `writeU32` keeps. -/
def cttsBox (offsets : List Int) : Option (List Nat) :=
  if offsets.any (· ≠ 0) then
    let hasNegative := offsets.any (· < 0)
    let entries := rle offsets
    some (fullBox cttsT (if hasNegative then 1 else 0) 0
      (writeU32 ((entries.length : Nat) : Int) ++
       (entries.map fun e => writeU32 ((e.1 : Nat) : Int) ++ writeU32 e.2).flatten))
  else none

/-- Mp4Builder `stssBox`: absent when there is no sync sample. -/
def stssBox (syncSampleNumbers : List Nat) : Option (List Nat) :=
  if syncSampleNumbers.isEmpty then none
  else some (fullBox stssT 0 0
    (writeU32 ((syncSampleNumbers.length : Nat) : Int) ++
     (syncSampleNumbers.map fun n => writeU32 ((n : Nat) : Int)).flatten))

/-- Mp4Builder `stszBox`: default size 0 and the per-sample size table. -/
def stszBox (sizes : List Int) : List Nat :=
  fullBox stszT 0 0
    (writeU32 0 ++ writeU32 ((sizes.length : Nat) : Int) ++
     (sizes.map fun s => writeU32 s).flatten)

/-- Mp4Builder `stscBox`: the single one-sample-per-chunk entry. -/
def stscBox : List Nat :=
  fullBox stscT 0 0 (writeU32 1 ++ writeU32 1 ++ writeU32 1 ++ writeU32 1)

/-- Mp4Builder `stcoBox`: 32-bit `stco` or 64-bit `co64` chunk offset table
(offsets in the model are the bigint values of the source). -/
def stcoBox (offsets : List Nat) (useCo64 : Bool) : List Nat :=
  if useCo64 then
    fullBox co64T 0 0
      (writeU32 ((offsets.length : Nat) : Int) ++ (offsets.map writeU64).flatten)
  else
    fullBox stcoT 0 0
      (writeU32 ((offsets.length : Nat) : Int) ++
       (offsets.map fun o => writeU32 ((o : Nat) : Int)).flatten)

/-- Mp4Builder `stbl`: fixed child order with the optional ctts and stss. -/
def stblBox (stsd stts : List Nat) (ctts stss : Option (List Nat))
    (stsc stsz stco : List Nat) : List Nat :=
  box stblT
    ((([stsd, stts] ++ ctts.toList ++ stss.toList) ++ [stsc, stsz, stco]).flatten)

/-- Mp4Builder `minimalFtyp`: isom major brand, minor 0x200, four brands. -/
def minimalFtyp : List Nat :=
  box ftypT (isomT ++ writeU32 0x00000200 ++ isomT ++ iso2T ++ avc1T ++ mp41T)

/-! Derived per-sample lists and totals of `Mp4Builder.build`. -/

/-- The duration list of `build` (`normalized.map(s => s.duration)`). -/
def durationsOf (samples : List Sample) : List Int := samples.map (·.duration)

/-- The composition offset list of `build` (`cts - dts`). -/
def ctsOffsetsOf (samples : List Sample) : List Int := samples.map fun s => s.cts - s.dts

/-- The size list of `build`. -/
def sizesOf (samples : List Sample) : List Int := samples.map (·.size)

/-- The 1-based sync sample numbers of `build`. -/
def syncSamplesOf (samples : List Sample) : List Nat :=
  (samples.enum.filter fun x => x.2.isKeyframe).map fun x => x.1 + 1

/-- `trackDuration` (also the movie duration): sum of the durations. -/
def trackDuration (samples : List Sample) : Int := (durationsOf samples).sum

/-- `mdatPayloadSize`: total coded byte count. -/
def mdatPayloadSize (samples : List Sample) : Nat :=
  (samples.map fun s => s.data.length).sum

/-- The concatenated `mdat` payload. -/
def mdatData (samples : List Sample) : List Nat := (samples.map (·.data)).flatten

/-- The ftyp used by `build`: the init ftyp when present, else the minimal one. -/
def ftypBoxOf (cfg : TrackConfig) : List Nat := cfg.ftyp.getD minimalFtyp

/-- `needsLargeMdat`: body plus compact header does not fit 32 bits. -/
def needsLargeMdat (samples : List Sample) : Bool :=
  decide (4294967295 < 8 + mdatPayloadSize samples)

/-- `mdatHeaderSize` (8 or 16), fixed by the mdat bytes across builder passes. -/
def mdatHeaderSize (samples : List Sample) : Nat :=
  if needsLargeMdat samples then 16 else 8

/-- The emitted mdat box (compact or large-size header). -/
def mdatBoxBytes (samples : List Sample) : List Nat :=
  if needsLargeMdat samples then
    writeU32 1 ++ mdatT ++ writeU64 (16 + mdatPayloadSize samples) ++ mdatData samples
  else
    writeU32 ((8 + mdatPayloadSize samples : Nat) : Int) ++ mdatT ++ mdatData samples

/-- The moov assembled by a builder pass, parameterized by the chunk offset
list handed to `stcoBox` (placeholder zeros or the real offsets) and the
offset-table width. -/
def moovFor (cfg : TrackConfig) (samples : List Sample) (offsets : List Nat)
    (useCo64 : Bool) : List Nat :=
  let stts := sttsBox (durationsOf samples)
  let ctts := cttsBox (ctsOffsetsOf samples)
  let stss := stssBox (syncSamplesOf samples)
  let stsz := stszBox (sizesOf samples)
  let stco := stcoBox offsets useCo64
  box moovT
    (mvhd cfg.timescale (trackDuration samples) ++
     box trakT
       (tkhd cfg.trackId (trackDuration samples) cfg.width cfg.height ++
        box mdiaT
          (mdhd cfg.timescale (trackDuration samples) ++ hdlrBox ++
           box minfT
             (vmhdBox ++ box dinfT drefBox ++
              stblBox cfg.stsd stts ctts stss stscBox stsz stco))))

/-- Running chunk offsets: `firstData + Σ_{j<i} data[j].length`, exactly the
`run` accumulation of `build`. -/
def offsetsFrom (firstData : Nat) : List Sample → List Nat
  | [] => []
  | s :: rest => firstData :: offsetsFrom (firstData + s.data.length) rest

/-- The chunk offsets computed by one builder pass with table width `useCo64`:
the moov of the same pass is built with placeholder offsets, and
`firstData = |ftyp| + |moov| + mdatHeaderSize`. -/
def chunkOffsetsFor (cfg : TrackConfig) (samples : List Sample) (useCo64 : Bool) : List Nat :=
  let placeholder : List Nat := List.replicate samples.length 0
  let firstData := (ftypBoxOf cfg).length + (moovFor cfg samples placeholder useCo64).length +
    mdatHeaderSize samples
  offsetsFrom firstData samples

/-- `maxOffsetBig`: fold of the JS `o > m ? o : m` from `0n`. -/
def maxOffsetOf (offsets : List Nat) : Nat :=
  offsets.foldl (fun m o => if m < o then o else m) 0

/-- Whether the final file uses co64. Pass 0 of the two-pass loop computes the
offsets in stco mode and promotes exactly when the maximum offset reaches 2^32;
pass 1 then runs to completion unconditionally (the `pass === 0` guard), so the
emitted mode is the pass-0 promotion decision. -/
def buildUseCo64 (cfg : TrackConfig) (samples : List Sample) : Bool :=
  decide (4294967296 ≤ maxOffsetOf (chunkOffsetsFor cfg samples false))

/-- The chunk offset list written into the emitted stco/co64 table. -/
def emittedChunkOffsets (cfg : TrackConfig) (samples : List Sample) : List Nat :=
  chunkOffsetsFor cfg samples (buildUseCo64 cfg samples)

/-- The moov of the emitted file (real offsets, final table width). -/
def emittedMoov (cfg : TrackConfig) (samples : List Sample) : List Nat :=
  moovFor cfg samples (emittedChunkOffsets cfg samples) (buildUseCo64 cfg samples)

/-- The keyframe timestamp list of `build`; the JS double division
`s.dts / config.timescale` is modelled as exact rational division of the two
integers (`Rat.divInt`). -/
def idrTimestampsOf (cfg : TrackConfig) (samples : List Sample) : List ℚ :=
  (samples.filter (·.isKeyframe)).map fun s => Rat.divInt s.dts cfg.timescale

/-- The list the spec words of C4 describe: keyframe presentation (cts)
timestamps over the timescale. Stated only to compare with the source; the
code writes decode (dts) timestamps. -/
def idrTimestampsSpec (cfg : TrackConfig) (samples : List Sample) : List ℚ :=
  (samples.filter (·.isKeyframe)).map fun s => Rat.divInt s.cts cfg.timescale

/-- Result record of `Mp4Builder.build` (Types.ts `FlatMp4Result` without the
flag, which `flattenFmp4ToMp4WithOptions` adds). -/
structure FlatMp4Result where
  buffer : List Nat
  idrTimestamps : List ℚ
deriving DecidableEq, Repr

/-- `Mp4Builder.build`. The `Chunk offset does not fit in stco` narrowing guard
of the stco branch is kept (the 2^53 `safeBigintToNumber` guard is subsumed by
it); the pass-0 promotion is folded into `buildUseCo64` as described there. -/
def build (cfg : TrackConfig) (samples : List Sample) : Except String FlatMp4Result :=
  if samples.isEmpty then .error "No samples to mux"
  else
    let useCo64 := buildUseCo64 cfg samples
    let offsets := emittedChunkOffsets cfg samples
    if useCo64 = false ∧ offsets.any fun o => decide (4294967296 ≤ o) then
      .error "Chunk offset does not fit in stco"
    else
      .ok { buffer := ftypBoxOf cfg ++ emittedMoov cfg samples ++ mdatBoxBytes samples,
            idrTimestamps := idrTimestampsOf cfg samples }

/-! ## FragmentParser (src/src/core/FragmentParser.ts)

Modelled from the spec: the flag-bit constants live in
`src/constants/Constants.ts`, which is not part of the source drop; their
values are the ones §4.3 of the specification states for `tfhd` and `trun`. -/

def TFHD_BASE_DATA_OFFSET : Nat := 0x000001
def TFHD_DEFAULT_SAMPLE_DURATION : Nat := 0x000008
def TFHD_DEFAULT_SAMPLE_SIZE : Nat := 0x000010
def TFHD_DEFAULT_SAMPLE_FLAGS : Nat := 0x000020
def TRUN_DATA_OFFSET : Nat := 0x000001
def TRUN_FIRST_SAMPLE_FLAGS : Nat := 0x000004
def TRUN_SAMPLE_DURATION : Nat := 0x000100
def TRUN_SAMPLE_SIZE : Nat := 0x000200
def TRUN_SAMPLE_FLAGS : Nat := 0x000400
def TRUN_SAMPLE_CTO : Nat := 0x000800

/-- Types.ts `TfhdDefaults`. -/
structure TfhdDefaults where
  trackId : Nat
  baseDataOffset : Option Nat := none
  defaultSampleDuration : Option Nat := none
  defaultSampleSize : Option Nat := none
  defaultSampleFlags : Option Nat := none
deriving DecidableEq, Repr

/-- Types.ts `TrunSample`. -/
structure TrunSample where
  duration : Option Nat := none
  size : Option Nat := none
  flags : Option Nat := none
  cto : Option Int := none
deriving DecidableEq, Repr

/-- The record `FragmentParser.parseTrun` returns. -/
structure TrunParsed where
  version : Nat
  flags : Nat
  dataOffset : Option Int := none
  firstSampleFlags : Option Nat := none
  samples : List TrunSample
deriving DecidableEq, Repr

/-- `Uint8Array.prototype.slice` with non-negative indices: reads `[a, b)`
clamped to the buffer. -/
def jsSliceNat (l : List Nat) (a b : Nat) : List Nat := (l.take b).drop a

/-- `Uint8Array.prototype.slice` with possibly signed indices (negative counts
from the end, as in JS). -/
def jsSlice (l : List Nat) (a b : Int) : List Nat :=
  let n : Int := l.length
  let s := if a < 0 then max (n + a) 0 else min a n
  let e := if b < 0 then max (n + b) 0 else min b n
  jsSliceNat l s.toNat e.toNat

/-- `FragmentParser.readFullBoxHeader`: version byte and 24-bit flags. -/
def readFullBoxHeader (data : List Nat) (b : Box) : Except String (Nat × Nat) :=
  let off := b.start + b.headerSize
  if b.stop < off + 4 then .error "Invalid full box"
  else .ok (data.getD off 0,
    data.getD (off + 1) 0 * 65536 + data.getD (off + 2) 0 * 256 + data.getD (off + 3) 0)

/-- `FragmentParser.safeBigintToNumber`: fails above `Number.MAX_SAFE_INTEGER`. -/
def safeBigintToNumber (v : Int) : Except String Int :=
  if (9007199254740991 : Int) < v then .error "too large for JS number" else .ok v

/-- `FragmentParser.parseTfhd`: the flag-driven optional field walk. -/
def parseTfhd (traf : List Nat) (tfhdBox : Box) : Except String TfhdDefaults := do
  let (_, flags) ← readFullBoxHeader traf tfhdBox
  let off0 := tfhdBox.start + tfhdBox.headerSize + 4
  let trackId := readU32 traf off0
  let off1 := off0 + 4
  let (baseDataOffset, off2) :=
    if flags &&& TFHD_BASE_DATA_OFFSET ≠ 0 then (some (readU64 traf off1), off1 + 8)
    else (none, off1)
  let off3 := if flags &&& 0x000002 ≠ 0 then off2 + 4 else off2
  let (defaultSampleDuration, off4) :=
    if flags &&& TFHD_DEFAULT_SAMPLE_DURATION ≠ 0 then (some (readU32 traf off3), off3 + 4)
    else (none, off3)
  let (defaultSampleSize, off5) :=
    if flags &&& TFHD_DEFAULT_SAMPLE_SIZE ≠ 0 then (some (readU32 traf off4), off4 + 4)
    else (none, off4)
  let defaultSampleFlags :=
    if flags &&& TFHD_DEFAULT_SAMPLE_FLAGS ≠ 0 then some (readU32 traf off5) else none
  .ok { trackId := trackId, baseDataOffset := baseDataOffset,
        defaultSampleDuration := defaultSampleDuration,
        defaultSampleSize := defaultSampleSize, defaultSampleFlags := defaultSampleFlags }

/-- `FragmentParser.parseTfdt`: 32-bit (v0) or 64-bit (v1) baseMediaDecodeTime. -/
def parseTfdt (traf : List Nat) (tfdtBox : Box) : Except String Nat := do
  let (version, _) ← readFullBoxHeader traf tfdtBox
  let off := tfdtBox.start + tfdtBox.headerSize + 4
  if version = 0 then .ok (readU32 traf off)
  else if version = 1 then .ok (readU64 traf off)
  else .error "Unsupported tfdt version"

/-- Per-sample field walk of `parseTrun` (one iteration per `sample_count`). -/
def trunSamplesLoop (traf : List Nat) (version flags : Nat) : Nat → Nat → List TrunSample
  | 0, _ => []
  | n + 1, off =>
    let (duration, off1) :=
      if flags &&& TRUN_SAMPLE_DURATION ≠ 0 then (some (readU32 traf off), off + 4)
      else (none, off)
    let (size, off2) :=
      if flags &&& TRUN_SAMPLE_SIZE ≠ 0 then (some (readU32 traf off1), off1 + 4)
      else (none, off1)
    let (sflags, off3) :=
      if flags &&& TRUN_SAMPLE_FLAGS ≠ 0 then (some (readU32 traf off2), off2 + 4)
      else (none, off2)
    let (cto, off4) :=
      if flags &&& TRUN_SAMPLE_CTO ≠ 0 then
        (some (if version = 1 then readI32 traf off3 else ((readU32 traf off3 : Nat) : Int)),
         off3 + 4)
      else (none, off3)
    { duration := duration, size := size, flags := sflags, cto := cto } ::
      trunSamplesLoop traf version flags n off4

/-- `FragmentParser.parseTrun`. -/
def parseTrun (traf : List Nat) (trunBox : Box) : Except String TrunParsed := do
  let (version, flags) ← readFullBoxHeader traf trunBox
  let off0 := trunBox.start + trunBox.headerSize + 4
  let sampleCount := readU32 traf off0
  let off1 := off0 + 4
  let (dataOffset, off2) :=
    if flags &&& TRUN_DATA_OFFSET ≠ 0 then (some (readI32 traf off1), off1 + 4)
    else (none, off1)
  let (firstSampleFlags, off3) :=
    if flags &&& TRUN_FIRST_SAMPLE_FLAGS ≠ 0 then (some (readU32 traf off2), off2 + 4)
    else (none, off2)
  .ok { version := version, flags := flags, dataOffset := dataOffset,
        firstSampleFlags := firstSampleFlags,
        samples := trunSamplesLoop traf version flags sampleCount off3 }

/-- `FragmentParser.getSampleFlags` priority chain. -/
def getSampleFlags (i : Nat) (trun : TrunParsed) (tfhd : TfhdDefaults)
    (ts : TrunSample) : Nat :=
  match ts.flags with
  | some f => f
  | none =>
    match (if i = 0 then trun.firstSampleFlags else none) with
    | some f => f
    | none => tfhd.defaultSampleFlags.getD 0

/-- `FragmentParser.isKeyframeFromFlags`: sample_is_non_sync_sample bit clear. -/
def isKeyframeFromFlags (sampleFlags : Nat) : Bool :=
  sampleFlags &&& 0x10000 = 0

/-- The dataStart resolution of `extractSamplesFromMoofMdat` (source lines
267 and 274-282): with a `trun.data_offset` it is
`baseDataOffset + data_offset` (where `baseDataOffset` defaults to the moof
start); without one it is a fatal error unless `allowTrunDataOffsetFallback`
is set, in which case the fallback picks `moof.end` when the tfhd carried a
`base_data_offset` and the mdat payload start otherwise. -/
def trunDataStart (opts : FlattenOptions) (tfhd : TfhdDefaults)
    (trunDataOffset : Option Int) (moofStart moofEnd mdatPayloadStart : Nat) :
    Except String Int :=
  let baseDataOffset : Int := ((tfhd.baseDataOffset.map fun n => (n : Int)).getD moofStart)
  match trunDataOffset with
  | some d => safeBigintToNumber (baseDataOffset + d)
  | none =>
    if (opts.allowTrunDataOffsetFallback.getD false) = false then
      .error "trun missing data_offset (required for byte-accurate extraction)"
    else
      .ok (match tfhd.baseDataOffset with
        | some _ => (moofEnd : Int)
        | none => (mdatPayloadStart : Int))

/-- The per-sample extraction loop of one trun: resolves duration/size/flags,
checks the byte range against the mdat payload, slices the sample data, and
advances the cursor and dts. Returns the samples with the final cursor and
dts. -/
def sampleLoop (fileBytes : List Nat) (tfhd : TfhdDefaults) (trun : TrunParsed)
    (mdatPS mdatPE : Nat) :
    List TrunSample → Nat → Int → Int → Except String (List Sample × Int × Int)
  | [], _, cursor, dts => .ok ([], cursor, dts)
  | ts :: rest, i, cursor, dts =>
    let duration : Nat := ts.duration.getD (tfhd.defaultSampleDuration.getD 0)
    let size : Nat := ts.size.getD (tfhd.defaultSampleSize.getD 0)
    if size = 0 then .error "Missing sample_size (cannot extract mdat bytes)"
    else if cursor < (mdatPS : Int) ∨ (mdatPE : Int) < cursor + size then
      .error "Sample byte range is outside mdat payload (data_offset/base_data_offset mismatch)"
    else
      let sampleFlags := getSampleFlags i trun tfhd ts
      let cto := ts.cto.getD 0
      let s : Sample :=
        { dts := dts, cts := dts + cto, duration := (duration : Int), size := (size : Int),
          isKeyframe := isKeyframeFromFlags sampleFlags,
          data := jsSlice fileBytes cursor (cursor + size) }
      match sampleLoop fileBytes tfhd trun mdatPS mdatPE rest (i + 1) (cursor + size)
          (dts + max 0 (duration : Int)) with
      | .error e => .error e
      | .ok (more, c, d) => .ok (s :: more, c, d)

/-- `sumSizes` of the post-trun consistency check. -/
def trunSumSizes (tfhd : TfhdDefaults) (samples : List TrunSample) : Nat :=
  samples.foldl (fun acc x => acc + x.size.getD (tfhd.defaultSampleSize.getD 0)) 0

/-- The per-trun loop inside one traf, threading the running dts across truns
and performing the post-run byte accounting checks. -/
def trunLoop (opts : FlattenOptions) (fileBytes trafInner : List Nat)
    (tfhd : TfhdDefaults) (moofStart moofEnd mdatPS mdatPE : Nat) :
    List Box → Int → Except String (List Sample)
  | [], _ => .ok []
  | trunBox :: rest, dts => do
    let trun ← parseTrun trafInner trunBox
    let dataStart ← trunDataStart opts tfhd trun.dataOffset moofStart moofEnd mdatPS
    let (here, cursor, dtsNext) ←
      sampleLoop fileBytes tfhd trun mdatPS mdatPE trun.samples 0 dataStart dts
    let sumSizes := trunSumSizes tfhd trun.samples
    if sumSizes = 0 then .error "trun sample sizes could not be resolved"
    else if cursor ≠ dataStart + sumSizes then
      .error "Sample sizes do not sum to consumed mdat bytes"
    else do
      let more ← trunLoop opts fileBytes trafInner tfhd moofStart moofEnd mdatPS mdatPE
        rest dtsNext
      .ok (here ++ more)

/-- The per-traf loop of `extractSamplesFromMoofMdat`: parse the traf children,
skip trafs without tfhd or with a foreign track id, require tfdt and at least
one trun. -/
def trafLoop (cfg : TrackConfig) (opts : FlattenOptions)
    (fileBytes moofContent : List Nat) (moofStart moofEnd mdatPS mdatPE : Nat) :
    List Box → Except String (List Sample)
  | [] => .ok []
  | trafBox :: rest => do
    let traf := jsSliceNat moofContent trafBox.start trafBox.stop
    let trafInner := traf.drop trafBox.headerSize
    let innerBoxes ← parseBoxes trafInner
    match innerBoxes.find? (fun b => b.type = tfhdT) with
    | none => trafLoop cfg opts fileBytes moofContent moofStart moofEnd mdatPS mdatPE rest
    | some tfhdBox => do
      let tfhd ← parseTfhd trafInner tfhdBox
      if (tfhd.trackId : Int) ≠ cfg.trackId then
        trafLoop cfg opts fileBytes moofContent moofStart moofEnd mdatPS mdatPE rest
      else
        match innerBoxes.find? (fun b => b.type = tfdtT) with
        | none => .error "traf missing tfdt"
        | some tfdtBox => do
          let baseDecodeTime ← parseTfdt trafInner tfdtBox
          let dts0 ← safeBigintToNumber (baseDecodeTime : Int)
          let truns := innerBoxes.filter (fun b => b.type = trunT)
          if truns.isEmpty then .error "traf missing trun"
          else do
            let here ← trunLoop opts fileBytes trafInner tfhd moofStart moofEnd mdatPS
              mdatPE truns dts0
            let more ← trafLoop cfg opts fileBytes moofContent moofStart moofEnd mdatPS
              mdatPE rest
            .ok (here ++ more)

/-- `FragmentParser.extractSamplesFromMoofMdat` for one moof+mdat pair. -/
def extractSamples (cfg : TrackConfig) (opts : FlattenOptions) (fileBytes : List Nat)
    (moof mdat : Box) : Except String (List Sample) := do
  let moofContent := jsSliceNat fileBytes (moof.start + moof.headerSize) moof.stop
  let boxes ← parseBoxes moofContent
  trafLoop cfg opts fileBytes moofContent moof.start moof.stop
    (mdat.start + mdat.headerSize) mdat.stop (boxes.filter (fun b => b.type = trafT))

/-- The scan pairing a moof with the next mdat before the next moof. -/
def findMdatAfter : List Box → Option Box
  | [] => none
  | b :: rest =>
    if b.type = mdatT then some b
    else if b.type = moofT then none
    else findMdatAfter rest

/-- All (moof, mdat) pairs of `FragmentParser.parse`, in order. -/
def collectPairs : List Box → List (Box × Box)
  | [] => []
  | b :: rest =>
    if b.type = moofT then
      match findMdatAfter rest with
      | some m => (b, m) :: collectPairs rest
      | none => collectPairs rest
    else collectPairs rest

/-- The pair loop of `FragmentParser.parse`: intra-fragment dts offsetting so
successive pairs concatenate monotonically, threading `lastEnd` and
`intraOffset`. -/
def pairLoop (cfg : TrackConfig) (opts : FlattenOptions) (fileBytes : List Nat) :
    List (Box × Box) → Int → Int → Except String (List Sample)
  | [], _, _ => .ok []
  | (moof, mdat) :: rest, lastEnd, intraOffset => do
    let raw ← extractSamples cfg opts fileBytes moof mdat
    match raw with
    | [] => pairLoop cfg opts fileBytes rest lastEnd intraOffset
    | r0 :: _ =>
      let intra := if r0.dts + intraOffset < lastEnd then lastEnd - r0.dts else intraOffset
      let shifted := raw.map fun s => { s with dts := s.dts + intra, cts := s.cts + intra }
      let lastEndNext := shifted.foldl
        (fun le s => let e := s.dts + max 0 s.duration; if le < e then e else le) lastEnd
      let more ← pairLoop cfg opts fileBytes rest lastEndNext intra
      .ok (shifted ++ more)

/-- `FragmentParser.parse`. -/
def parse (cfg : TrackConfig) (opts : FlattenOptions) (fragment : List Nat) :
    Except String (List Sample) := do
  let boxes ← parseBoxes fragment
  if ¬ boxes.any (fun b => b.type = moofT) then .error "Fragment missing moof"
  else
    let pairs := collectPairs boxes
    if pairs.isEmpty then .error "Fragment has moof but no following mdat"
    else pairLoop cfg opts fragment pairs 0 0

/-! ## Concrete inputs used by counterexamples and witnesses -/

/-- A small concrete track configuration (stsd is an opaque 8-byte box the
builder copies verbatim). -/
def cfgA : TrackConfig :=
  { trackId := 1, timescale := 1000, width := 64, height := 48,
    stsd := [0, 0, 0, 8, 0x73, 0x74, 0x73, 0x64] }

/-- A one-sample list element: 5 data bytes, keyframe. -/
def sampA : Sample :=
  { dts := 0, cts := 0, duration := 10, size := 5, isKeyframe := true, data := [9, 8, 7, 6, 5] }

/-- A keyframe whose composition time differs from its decode time. -/
def sampKf : Sample :=
  { dts := 0, cts := 500, duration := 10, size := 5, isKeyframe := true, data := [9, 8, 7, 6, 5] }

/-- A sample whose duration is exactly 2^32 (a valid JS number). -/
def sampBigDur : Sample :=
  { dts := 0, cts := 0, duration := 4294967296, size := 5, isKeyframe := true,
    data := [9, 8, 7, 6, 5] }

/-- A 4 GiB sample: pushes the second chunk offset past 2^32 while the first
chunk offset stays far below it. -/
def bigS : Sample :=
  { dts := 0, cts := 0, duration := 1000, size := 4294967296, isKeyframe := false,
    data := List.replicate 4294967296 0 }

/-- The one-byte sample following `bigS`. -/
def smallS : Sample :=
  { dts := 1000, cts := 1000, duration := 1000, size := 1, isKeyframe := false, data := [0] }

/-- A buffer whose first header carries size 5, smaller than the compact
header size 8. -/
def truncData : List Nat := [0, 0, 0, 5, 0x66, 0x72, 0x65, 0x65]

/-- A concrete 89-byte fragment: one moof (traf with tfhd for track 1, tfdt 0,
one trun with data_offset 84 and one sample of duration 10 and size 5)
followed by a 13-byte mdat whose payload is the 5 sample bytes. -/
def frag89 : List Nat :=
  [0, 0, 0, 76, 0x6d, 0x6f, 0x6f, 0x66,
   0, 0, 0, 68, 0x74, 0x72, 0x61, 0x66,
   0, 0, 0, 16, 0x74, 0x66, 0x68, 0x64, 0, 0, 0, 0, 0, 0, 0, 1,
   0, 0, 0, 16, 0x74, 0x66, 0x64, 0x74, 0, 0, 0, 0, 0, 0, 0, 0,
   0, 0, 0, 28, 0x74, 0x72, 0x75, 0x6e, 0, 0, 3, 1, 0, 0, 0, 1,
     0, 0, 0, 84, 0, 0, 0, 10, 0, 0, 0, 5,
   0, 0, 0, 13, 0x6d, 0x64, 0x61, 0x74, 9, 8, 7, 6, 5]

/-- The sample `parse` extracts from `frag89`. -/
def sample89 : Sample :=
  { dts := 0, cts := 0, duration := 10, size := 5, isKeyframe := true, data := [9, 8, 7, 6, 5] }

/-- A tfhd carrying a base_data_offset of 1000 (used against the fallback). -/
def tfhdC5 : TfhdDefaults := { trackId := 1, baseDataOffset := some 1000 }

/-- Options with the trun data-offset fallback switched on. -/
def optsFallback : FlattenOptions := { allowTrunDataOffsetFallback := some true }

/-- A sample as the data-range predicate of the extraction loop guarantees it:
its bytes are a slice of the fragment lying inside `[mdatPS, mdatPE)`. -/
def WithinMdat (fileBytes : List Nat) (mdatPS mdatPE : Nat) (s : Sample) : Prop :=
  ∃ c : Int, (mdatPS : Int) ≤ c ∧ c + s.size ≤ (mdatPE : Int) ∧
    s.data = jsSlice fileBytes c (c + s.size)

/-- The per-sample invariant established by `sampleLoop`. -/
def GoodSample (fileBytes : List Nat) (mdatPS mdatPE : Nat) (s : Sample) : Prop :=
  0 ≤ s.duration ∧ 0 < s.size ∧ WithinMdat fileBytes mdatPS mdatPE s

/-! # Theorems -/

/-- C8: if the decoded header has `size < headerSize`, or its end would pass
the range end, the box walker stops at that point and returns `.ok` with no
further boxes (so the caller receives exactly the boxes decoded so far, and no
error is raised). -/
theorem parse_boxes_truncated_stop (data : List Nat) (endPos off fuel size headerSize : Nat)
    (hin : off + 8 ≤ endPos)
    (hdr : decodeHeader data off endPos = .ok (some (size, headerSize)))
    (hstop : size < headerSize ∨ endPos < off + size) :
    parseBoxesAux data endPos (fuel + 1) off = .ok [] := by
  unfold parseBoxesAux
  rw [if_pos hin, hdr]
  simp only [if_pos hstop]

/-- Witness for C8 on `truncData` (header size 5 < headerSize 8), at the fuel
`parseBoxes` itself uses. -/
theorem parse_boxes_truncated_stop_witness :
    decodeHeader truncData 0 8 = .ok (some (5, 8)) ∧
    parseBoxesAux truncData 8 9 0 = .ok [] :=
  ⟨rfl,
   parse_boxes_truncated_stop truncData 8 0 8 5 8 (by decide) rfl
     (Or.inl (by decide))⟩

/-- C5 counterexample: with the fallback enabled, a trun without data_offset
under a tfhd whose base_data_offset is 1000 and a moof ending at byte 64 gets
`dataStart = 64` (the moof end), not the base_data_offset 1000 the claim
describes. -/
theorem trun_fallback_basedataoffset_cex :
    trunDataStart optsFallback tfhdC5 none 0 64 84 = .ok 64 ∧
    tfhdC5.baseDataOffset = some 1000 ∧ (64 : Int) ≠ 1000 :=
  ⟨rfl, rfl, by decide⟩

/-- C5 (amended): for a trun without a data_offset field, when
`allowTrunDataOffsetFallback` is false (its default) the parser fails with the
MissingTrunDataOffset error; when it is true, dataStart is the moof end if the
tfhd set a base_data_offset, and the mdat payload start otherwise. -/
theorem trun_dataoffset_fallback (opts : FlattenOptions) (tfhd : TfhdDefaults)
    (moofStart moofEnd mdatPS : Nat) :
    (opts.allowTrunDataOffsetFallback.getD false = false →
      trunDataStart opts tfhd none moofStart moofEnd mdatPS =
        .error "trun missing data_offset (required for byte-accurate extraction)") ∧
    (opts.allowTrunDataOffsetFallback.getD false = true →
      trunDataStart opts tfhd none moofStart moofEnd mdatPS =
        .ok (match tfhd.baseDataOffset with
          | some _ => (moofEnd : Int)
          | none => (mdatPS : Int))) := by
  constructor
  · intro h
    simp [trunDataStart, h]
  · intro h
    simp [trunDataStart, h]

/-- Witness for C5 at concrete inputs: both the missing-data_offset failure
(default options) and the two fallback shapes. -/
theorem trun_dataoffset_fallback_witness :
    ({} : FlattenOptions).allowTrunDataOffsetFallback.getD false = false ∧
    trunDataStart {} tfhdC5 none 0 64 84 =
      .error "trun missing data_offset (required for byte-accurate extraction)" ∧
    optsFallback.allowTrunDataOffsetFallback.getD false = true ∧
    trunDataStart optsFallback { trackId := 1 } none 0 64 84 = .ok 84 :=
  ⟨rfl, (trun_dataoffset_fallback {} tfhdC5 0 64 84).1 rfl, rfl,
   (trun_dataoffset_fallback optsFallback { trackId := 1 } 0 64 84).2 rfl⟩

/-! Helper lemmas: writer lengths and reading back a written 32-bit field. -/

@[simp] theorem length_writeU8 (v : Int) : (writeU8 v).length = 1 := rfl

@[simp] theorem length_writeU16 (v : Int) : (writeU16 v).length = 2 := rfl

@[simp] theorem length_writeU24 (v : Int) : (writeU24 v).length = 3 := rfl

@[simp] theorem length_writeU32 (v : Int) : (writeU32 v).length = 4 := rfl

@[simp] theorem length_writeU64 (v : Nat) : (writeU64 v).length = 8 := rfl

theorem toUint32_lt (v : Int) : toUint32 v < 4294967296 := by
  unfold toUint32
  have h1 := Int.emod_nonneg v (by norm_num : (4294967296 : Int) ≠ 0)
  have h2 := Int.emod_lt_of_pos v (by norm_num : (0 : Int) < 4294967296)
  omega

/-- Reading 32 bits right after `pre` recovers the word written there. -/
theorem readU32_at_append (pre post : List Nat) (v : Int) :
    readU32 (pre ++ (writeU32 v ++ post)) pre.length = toUint32 v := by
  have key : ∀ n : Nat, (pre ++ (writeU32 v ++ post)).getD (pre.length + n) 0
      = (writeU32 v ++ post).getD n 0 := by
    intro n
    rw [List.getD_append_right _ _ _ _ (by omega)]
    congr 1
    omega
  have k0 := key 0
  have k1 := key 1
  have k2 := key 2
  have k3 := key 3
  simp only [Nat.add_zero] at k0
  unfold readU32
  rw [k0, k1, k2, k3]
  have hw : writeU32 v ++ post =
      (toUint32 v / 16777216 % 256) :: (toUint32 v / 65536 % 256) ::
      (toUint32 v / 256 % 256) :: (toUint32 v % 256) :: post := rfl
  rw [hw]
  have g0 : ∀ (a b c d : Nat) (l : List Nat), (a :: b :: c :: d :: l).getD 0 0 = a :=
    fun _ _ _ _ _ => rfl
  have g1 : ∀ (a b c d : Nat) (l : List Nat), (a :: b :: c :: d :: l).getD 1 0 = b :=
    fun _ _ _ _ _ => rfl
  have g2 : ∀ (a b c d : Nat) (l : List Nat), (a :: b :: c :: d :: l).getD 2 0 = c :=
    fun _ _ _ _ _ => rfl
  have g3 : ∀ (a b c d : Nat) (l : List Nat), (a :: b :: c :: d :: l).getD 3 0 = d :=
    fun _ _ _ _ _ => rfl
  rw [g0, g1, g2, g3]
  have := toUint32_lt v
  omega

/-- The bytes of mvhd around its duration field. -/
theorem mvhd_decomp (ts d : Int) : mvhd ts d =
    (writeU32 108 ++ mvhdT ++ writeU8 0 ++ writeU24 0 ++ writeU32 0 ++ writeU32 0 ++
      writeU32 ts) ++ (writeU32 d ++
    (writeU32 0x00010000 ++ writeU16 0 ++ writeU16 0 ++ writeU32 0 ++ writeU32 0 ++
      writeU32 0x00010000 ++ writeU32 0 ++ writeU32 0 ++
      writeU32 0 ++ writeU32 0x00010000 ++ writeU32 0 ++
      writeU32 0 ++ writeU32 0 ++ writeU32 0x40000000 ++
      writeU32 0 ++ writeU32 0 ++ writeU32 0 ++ writeU32 0 ++ writeU32 0 ++ writeU32 0 ++
      writeU32 2)) := by
  simp [mvhd, fullBox, box, List.append_assoc]

/-- The bytes of tkhd around its duration field. -/
theorem tkhd_decomp (tid d w h : Int) : tkhd tid d w h =
    (writeU32 92 ++ tkhdT ++ writeU8 0 ++ writeU24 7 ++ writeU32 0 ++ writeU32 0 ++
      writeU32 tid ++ writeU32 0) ++ (writeU32 d ++
    (writeU32 0 ++ writeU32 0 ++
      writeU16 0 ++ writeU16 0 ++ writeU16 0 ++ writeU16 0 ++
      writeU32 0x00010000 ++ writeU32 0 ++ writeU32 0 ++
      writeU32 0 ++ writeU32 0x00010000 ++ writeU32 0 ++
      writeU32 0 ++ writeU32 0 ++ writeU32 0x40000000 ++
      writeU32 (w * 65536) ++ writeU32 (h * 65536))) := by
  simp [tkhd, fullBox, box, List.append_assoc]

/-- The bytes of mdhd around its duration field. -/
theorem mdhd_decomp (ts d : Int) : mdhd ts d =
    (writeU32 32 ++ mdhdT ++ writeU8 0 ++ writeU24 0 ++ writeU32 0 ++ writeU32 0 ++
      writeU32 ts) ++ (writeU32 d ++ (writeU16 0 ++ writeU16 0)) := by
  simp [mdhd, fullBox, box, List.append_assoc]

/-- The mvhd duration field (bytes 24..27) is the low 32 bits of the duration. -/
theorem mvhd_duration_field (ts d : Int) : readU32 (mvhd ts d) 24 = toUint32 d := by
  rw [mvhd_decomp]
  have hl : ((writeU32 108 ++ mvhdT ++ writeU8 0 ++ writeU24 0 ++ writeU32 0 ++ writeU32 0 ++
      writeU32 ts) : List Nat).length = 24 := by simp [mvhdT]
  rw [← hl]
  exact readU32_at_append _ _ d

/-- The tkhd duration field (bytes 28..31) is the low 32 bits of the duration. -/
theorem tkhd_duration_field (tid d w h : Int) : readU32 (tkhd tid d w h) 28 = toUint32 d := by
  rw [tkhd_decomp]
  have hl : ((writeU32 92 ++ tkhdT ++ writeU8 0 ++ writeU24 7 ++ writeU32 0 ++ writeU32 0 ++
      writeU32 tid ++ writeU32 0) : List Nat).length = 28 := by simp [tkhdT]
  rw [← hl]
  exact readU32_at_append _ _ d

/-- The mdhd duration field (bytes 24..27) is the low 32 bits of the duration. -/
theorem mdhd_duration_field (ts d : Int) : readU32 (mdhd ts d) 24 = toUint32 d := by
  rw [mdhd_decomp]
  have hl : ((writeU32 32 ++ mdhdT ++ writeU8 0 ++ writeU24 0 ++ writeU32 0 ++ writeU32 0 ++
      writeU32 ts) : List Nat).length = 24 := by simp [mdhdT]
  rw [← hl]
  exact readU32_at_append _ _ d

/-- C4 (amended): `idrTimestamps` is the list, in decode order, of the
keyframe samples decode timestamps (dts, not the presentation timestamp cts)
divided by the track timescale. -/
theorem idr_uses_dts (cfg : TrackConfig) (samples : List Sample) (r : FlatMp4Result)
    (h : build cfg samples = .ok r) :
    r.idrTimestamps =
      (samples.filter (·.isKeyframe)).map fun s => Rat.divInt s.dts cfg.timescale := by
  unfold build at h
  split at h
  · simp at h
  · dsimp only at h
    split at h
    · simp at h
    · injection h with h2
      rw [← h2]
      rfl

/-- Witness for C4 at a concrete one-keyframe build. -/
theorem idr_uses_dts_witness :
    (build cfgA [sampA]).map (fun r => r.idrTimestamps) =
      .ok (([sampA].filter (·.isKeyframe)).map fun s => Rat.divInt s.dts cfgA.timescale) := by
  have hok : (build cfgA [sampA]).toOption.isSome = true := rfl
  rcases hb : build cfgA [sampA] with e | r
  · rw [hb] at hok
    simp [Except.toOption] at hok
  · show Except.ok r.idrTimestamps = _
    rw [idr_uses_dts cfgA [sampA] r hb]

/-- C4 counterexample: a keyframe with dts 0 but cts 500 at timescale 1000.
The built list is [0] while the list of presentation times the claim
describes is [1/2]. -/
theorem idr_presentation_cex :
    (build cfgA [sampKf]).map (fun r => r.idrTimestamps) = .ok [(0 : ℚ)] ∧
    idrTimestampsSpec cfgA [sampKf] = [Rat.divInt 1 2] ∧
    ((0 : ℚ) ≠ Rat.divInt 1 2) := by
  refine ⟨rfl, by decide, by decide⟩

/-- C6 counterexample: one sample of duration 2^32. The duration fields the
builder writes into mvhd, tkhd and mdhd all read back 0, while the duration
sum is 2^32, so the written field differs from the sum. -/
theorem duration_field_wrap_cex :
    trackDuration [sampBigDur] = 4294967296 ∧
    readU32 (mvhd cfgA.timescale (trackDuration [sampBigDur])) 24 = 0 ∧
    readU32 (tkhd cfgA.trackId (trackDuration [sampBigDur]) cfgA.width cfgA.height) 28 = 0 ∧
    readU32 (mdhd cfgA.timescale (trackDuration [sampBigDur])) 24 = 0 ∧
    ((0 : Int) ≠ 4294967296) := by
  refine ⟨by decide, by decide, by decide, by decide, by decide⟩

/-- C6 (amended): the 32-bit duration field written in mvhd, tkhd and mdhd
equals the sum of the output sample durations reduced modulo 2^32 (all three
boxes are version 0, as their version bytes show), hence equals the sum
whenever the sum is below 2^32. -/
theorem duration_field_mod32 (cfg : TrackConfig) (samples : List Sample) :
    readU32 (mvhd cfg.timescale (trackDuration samples)) 24 =
      toUint32 (trackDuration samples) ∧
    readU32 (tkhd cfg.trackId (trackDuration samples) cfg.width cfg.height) 28 =
      toUint32 (trackDuration samples) ∧
    readU32 (mdhd cfg.timescale (trackDuration samples)) 24 =
      toUint32 (trackDuration samples) ∧
    (mvhd cfg.timescale (trackDuration samples)).getD 8 0 = 0 ∧
    (tkhd cfg.trackId (trackDuration samples) cfg.width cfg.height).getD 8 0 = 0 ∧
    (mdhd cfg.timescale (trackDuration samples)).getD 8 0 = 0 :=
  ⟨mvhd_duration_field _ _, tkhd_duration_field _ _ _ _, mdhd_duration_field _ _,
   rfl, rfl, rfl⟩

theorem phase1Step_dts_le_cts (prev : Option Sample) (s : Sample) :
    (phase1Step prev s).dts ≤ (phase1Step prev s).cts := by
  unfold phase1Step
  cases prev <;> dsimp only <;> split_ifs <;> simp_all

theorem phase1Step_prev_le (p : Sample) (s : Sample) :
    p.dts ≤ (phase1Step (some p) s).dts := by
  unfold phase1Step
  dsimp only
  split_ifs <;> simp_all <;> omega

theorem phase1Loop_chain (l : List Sample) :
    ∀ p : Sample, List.Chain (fun a b : Sample => a.dts ≤ b.dts) p (phase1Loop (some p) l) := by
  induction l with
  | nil => intro p; exact List.Chain.nil
  | cons s rest ih =>
    intro p
    exact List.Chain.cons (phase1Step_prev_le p s) (ih (phase1Step (some p) s))

theorem phase1Loop_chain' (l : List Sample) :
    List.Chain' (fun a b : Sample => a.dts ≤ b.dts) (phase1Loop none l) := by
  cases l with
  | nil => simp [phase1Loop]
  | cons s rest =>
    show List.Chain (fun a b : Sample => a.dts ≤ b.dts) (phase1Step none s)
      (phase1Loop (some (phase1Step none s)) rest)
    exact phase1Loop_chain rest (phase1Step none s)

theorem phase1Loop_cts (prev : Option Sample) (l : List Sample) :
    ∀ s ∈ phase1Loop prev l, s.dts ≤ s.cts := by
  induction l generalizing prev with
  | nil => simp [phase1Loop]
  | cons x rest ih =>
    intro s hs
    simp only [phase1Loop, List.mem_cons] at hs
    rcases hs with h | h
    · subst h; exact phase1Step_dts_le_cts _ _
    · exact ih _ s h

theorem phase2Loop_keeps (pd : Option Int) (l : List Sample) :
    ((phase2Loop pd l).1).map (fun s => (s.dts, s.cts, s.size, s.isKeyframe, s.data)) =
      l.map (fun s => (s.dts, s.cts, s.size, s.isKeyframe, s.data)) := by
  induction l generalizing pd with
  | nil => rfl
  | cons s rest ih =>
    cases rest with
    | nil =>
      simp only [phase2Loop]
      split_ifs <;> rfl
    | cons next rest2 =>
      simp only [phase2Loop]
      split_ifs <;> simp [ih]



theorem adj_exists_cons {P : Sample → Sample → Prop} (a : Sample) (l : List Sample) :
    (∃ i s next, (a :: l).get? i = some s ∧ (a :: l).get? (i + 1) = some next ∧ P s next) ↔
      ((∃ next, l.get? 0 = some next ∧ P a next) ∨
        (∃ i s next, l.get? i = some s ∧ l.get? (i + 1) = some next ∧ P s next)) := by
  constructor
  · rintro ⟨i, s, next, h1, h2, hp⟩
    cases i with
    | zero =>
      left
      simp only [List.get?_cons_zero, Option.some.injEq] at h1
      subst h1
      exact ⟨next, by simpa using h2, hp⟩
    | succ j =>
      right
      exact ⟨j, s, next, by simpa using h1, by simpa using h2, hp⟩
  · rintro (⟨next, h1, hp⟩ | ⟨i, s, next, h1, h2, hp⟩)
    · exact ⟨0, a, next, rfl, by simpa using h1, hp⟩
    · exact ⟨i + 1, s, next, by simpa using h1, by simpa using h2, hp⟩

theorem phase2Loop_flag (pd : Option Int) (l : List Sample) :
    (phase2Loop pd l).2 = true ↔
      ∃ i s next, l.get? i = some s ∧ l.get? (i + 1) = some next ∧
        (s.duration = 0 ∧ 1 < next.dts - s.dts) := by
  induction l generalizing pd with
  | nil => simp [phase2Loop]
  | cons s rest ih =>
    cases rest with
    | nil =>
      simp only [phase2Loop]
      rw [adj_exists_cons]
      split_ifs <;> simp
    | cons next rest2 =>
      simp only [phase2Loop]
      rw [adj_exists_cons]
      split_ifs with hd hdelta
      · simp [ih, hd]
      · simp [ih, hd]
      · show (phase2Loop (some s.duration) (next :: rest2)).2 = true ↔ _
        rw [ih]
        simp [hd]



/-- C7: `normalize` returns `discontinuityDetected = true` exactly when the
duration-repair loop (Phase C second pass) meets a zero-duration sample whose
gap to the next sample, on the list the first pass produced, exceeds one
media-timescale unit. -/
theorem discontinuity_flag_iff (samples : List Sample) (po : Bool) :
    (normalize samples po).discontinuityDetected = true ↔
      ∃ i s next, (phase1List samples po).get? i = some s ∧
        (phase1List samples po).get? (i + 1) = some next ∧
        s.duration = 0 ∧ 1 < next.dts - s.dts :=
  phase2Loop_flag none (phase1List samples po)

theorem normalize_chain' (samples : List Sample) (po : Bool) :
    List.Chain' (fun a b : Sample => a.dts ≤ b.dts) (normalize samples po).samples := by
  have h1 := phase1Loop_chain' (normalizeBase samples po)
  have hk := phase2Loop_keeps none (phase1List samples po)
  have h2 : List.Chain' (fun x y : Int × Int × Int × Bool × List Nat => x.1 ≤ y.1)
      ((phase1List samples po).map (fun s => (s.dts, s.cts, s.size, s.isKeyframe, s.data))) := by
    rw [List.chain'_map]
    exact h1
  rw [← hk] at h2
  rw [List.chain'_map] at h2
  exact h2

theorem normalize_cts_ge (samples : List Sample) (po : Bool) :
    ∀ s ∈ (normalize samples po).samples, s.dts ≤ s.cts := by
  intro s hs
  have hk := phase2Loop_keeps none (phase1List samples po)
  have hmem : (s.dts, s.cts, s.size, s.isKeyframe, s.data) ∈
      (phase1List samples po).map (fun s => (s.dts, s.cts, s.size, s.isKeyframe, s.data)) := by
    rw [← hk]
    exact List.mem_map_of_mem _ hs
  rcases List.mem_map.mp hmem with ⟨t, ht, heq⟩
  have h2 := phase1Loop_cts none (normalizeBase samples po) t ht
  simp only [Prod.mk.injEq] at heq
  omega



/-- C3: every sample list returned by `TimelineNormalizer.normalize` (with or
without `preserveOrder`), and hence by `normalizeFragments`, has non-decreasing
dts in emission order, and every returned sample satisfies `cts ≥ dts`. -/
theorem normalize_monotone_cts_ge_dts :
    (∀ (samples : List Sample) (po : Bool) (i : Nat)
        (h : i + 1 < ((normalize samples po).samples).length),
      (((normalize samples po).samples).get ⟨i, by omega⟩).dts ≤
        (((normalize samples po).samples).get ⟨i + 1, h⟩).dts) ∧
    (∀ (samples : List Sample) (po : Bool), ∀ s ∈ (normalize samples po).samples,
      s.dts ≤ s.cts) ∧
    (∀ (frs : List (List Sample)) (opts : FlattenOptions) (i : Nat)
        (h : i + 1 < ((normalizeFragments frs opts).samples).length),
      (((normalizeFragments frs opts).samples).get ⟨i, by omega⟩).dts ≤
        (((normalizeFragments frs opts).samples).get ⟨i + 1, h⟩).dts) ∧
    (∀ (frs : List (List Sample)) (opts : FlattenOptions),
      ∀ s ∈ (normalizeFragments frs opts).samples, s.dts ≤ s.cts) := by
  have key : ∀ (samples : List Sample) (po : Bool) (i : Nat)
      (h : i + 1 < ((normalize samples po).samples).length),
      (((normalize samples po).samples).get ⟨i, by omega⟩).dts ≤
        (((normalize samples po).samples).get ⟨i + 1, h⟩).dts := by
    intro samples po i h
    have hc := List.chain'_iff_get.mp (normalize_chain' samples po) i (by omega)
    exact hc
  refine ⟨key, fun samples po => normalize_cts_ge samples po, ?_, ?_⟩
  · intro frs opts i h
    exact key _ true i h
  · intro frs opts
    exact normalize_cts_ge _ true

/-- Witness for C3 at a concrete two-sample normalization. -/
theorem normalize_monotone_cts_ge_dts_witness :
    0 + 1 < ((normalize [sampKf, sampA] true).samples).length ∧
    (((normalize [sampKf, sampA] true).samples).get ⟨0, by decide⟩).dts ≤
      (((normalize [sampKf, sampA] true).samples).get ⟨0 + 1, by decide⟩).dts :=
  ⟨by decide, normalize_monotone_cts_ge_dts.1 [sampKf, sampA] true 0 (by decide)⟩



theorem GoodSample_shift (fileBytes : List Nat) (ps pe : Nat) (s : Sample) (a b : Int)
    (h : GoodSample fileBytes ps pe s) :
    GoodSample fileBytes ps pe { s with dts := a, cts := b } := by
  rcases h with ⟨h1, h2, c, hc1, hc2, hc3⟩
  exact ⟨h1, h2, c, hc1, hc2, hc3⟩

theorem sampleLoop_good (fileBytes : List Nat) (tfhd : TfhdDefaults) (trun : TrunParsed)
    (mdatPS mdatPE : Nat) (ts : List TrunSample) :
    ∀ (i : Nat) (cursor dts : Int) (out : List Sample) (c d : Int),
      sampleLoop fileBytes tfhd trun mdatPS mdatPE ts i cursor dts = .ok (out, c, d) →
      ∀ s ∈ out, GoodSample fileBytes mdatPS mdatPE s := by
  induction ts with
  | nil =>
    intro i cursor dts out c d h s hs
    simp only [sampleLoop, Except.ok.injEq, Prod.mk.injEq] at h
    rw [← h.1] at hs
    simp at hs
  | cons t rest ih =>
    intro i cursor dts out c d h s hs
    simp only [sampleLoop] at h
    by_cases h1 : t.size.getD (tfhd.defaultSampleSize.getD 0) = 0
    · rw [if_pos h1] at h
      exact absurd h (by simp)
    · rw [if_neg h1] at h
      by_cases h2 : (cursor < (mdatPS : Int) ∨
          (mdatPE : Int) < cursor + (t.size.getD (tfhd.defaultSampleSize.getD 0) : Nat))
      · rw [if_pos h2] at h
        exact absurd h (by simp)
      · rw [if_neg h2] at h
        split at h
        · exact absurd h (by simp)
        · rename_i more c2 d2 heq
          simp only [Except.ok.injEq, Prod.mk.injEq] at h
          rw [← h.1] at hs
          rcases List.mem_cons.mp hs with hh | hh
          · subst hh
            push_neg at h2
            refine ⟨?_, ?_, cursor, ?_, ?_, ?_⟩
            · dsimp only
              omega
            · dsimp only
              omega
            · omega
            · dsimp only
              omega
            · rfl
          · exact ih (i + 1) _ _ more c2 d2 heq s hh



theorem trunLoop_good (opts : FlattenOptions) (fileBytes trafInner : List Nat)
    (tfhd : TfhdDefaults) (moofStart moofEnd mdatPS mdatPE : Nat) (boxes : List Box) :
    ∀ (dts : Int) (out : List Sample),
      trunLoop opts fileBytes trafInner tfhd moofStart moofEnd mdatPS mdatPE boxes dts =
        .ok out →
      ∀ s ∈ out, GoodSample fileBytes mdatPS mdatPE s := by
  induction boxes with
  | nil =>
    intro dts out h s hs
    simp only [trunLoop, Except.ok.injEq] at h
    rw [← h] at hs
    simp at hs
  | cons b rest ih =>
    intro dts out h s hs
    simp only [trunLoop, bind, Except.bind] at h
    split at h
    · exact absurd h (by simp)
    rename_i trun heq1
    split at h
    · exact absurd h (by simp)
    rename_i dataStart heq2
    split at h
    · exact absurd h (by simp)
    rename_i trip heq3
    obtain ⟨here, cursor, dtsNext⟩ := trip
    dsimp only at h
    by_cases hs0 : trunSumSizes tfhd trun.samples = 0
    · rw [if_pos hs0] at h
      exact absurd h (by simp)
    rw [if_neg hs0] at h
    by_cases hc : cursor ≠ dataStart + (trunSumSizes tfhd trun.samples : Nat)
    · rw [if_pos hc] at h
      exact absurd h (by simp)
    rw [if_neg hc] at h
    split at h
    · exact absurd h (by simp)
    rename_i more heq4
    simp only [Except.ok.injEq] at h
    rw [← h] at hs
    rcases List.mem_append.mp hs with hh | hh
    · exact sampleLoop_good fileBytes tfhd trun mdatPS mdatPE trun.samples 0 dataStart dts
        here cursor dtsNext heq3 s hh
    · exact ih dtsNext more heq4 s hh



theorem trafLoop_good (cfg : TrackConfig) (opts : FlattenOptions)
    (fileBytes moofContent : List Nat) (moofStart moofEnd mdatPS mdatPE : Nat)
    (boxes : List Box) :
    ∀ (out : List Sample),
      trafLoop cfg opts fileBytes moofContent moofStart moofEnd mdatPS mdatPE boxes =
        .ok out →
      ∀ s ∈ out, GoodSample fileBytes mdatPS mdatPE s := by
  induction boxes with
  | nil =>
    intro out h s hs
    simp only [trafLoop, Except.ok.injEq] at h
    rw [← h] at hs
    simp at hs
  | cons b rest ih =>
    intro out h s hs
    simp only [trafLoop, bind, Except.bind] at h
    split at h
    · exact absurd h (by simp)
    rename_i innerBoxes heq1
    split at h
    · exact ih out h s hs
    rename_i tfhdBox heq2
    split at h
    · exact absurd h (by simp)
    rename_i tfhd heq3
    by_cases htid : (tfhd.trackId : Int) ≠ cfg.trackId
    · rw [if_pos htid] at h
      exact ih out h s hs
    rw [if_neg htid] at h
    split at h
    · exact absurd h (by simp)
    rename_i tfdtBox heq4
    split at h
    · exact absurd h (by simp)
    rename_i bdt heq5
    split at h
    · exact absurd h (by simp)
    rename_i dts0 heq6
    by_cases htr : (innerBoxes.filter (fun bx => bx.type = trunT)).isEmpty = true
    · rw [if_pos htr] at h
      exact absurd h (by simp)
    rw [if_neg htr] at h
    split at h
    · exact absurd h (by simp)
    rename_i here heq7
    split at h
    · exact absurd h (by simp)
    rename_i more heq8
    simp only [Except.ok.injEq] at h
    rw [← h] at hs
    rcases List.mem_append.mp hs with hh | hh
    · exact trunLoop_good opts fileBytes _ tfhd moofStart moofEnd mdatPS mdatPE _ dts0 here
        heq7 s hh
    · exact ih more heq8 s hh



theorem extractSamples_good (cfg : TrackConfig) (opts : FlattenOptions)
    (fileBytes : List Nat) (moof mdat : Box) (out : List Sample)
    (h : extractSamples cfg opts fileBytes moof mdat = .ok out) :
    ∀ s ∈ out, GoodSample fileBytes (mdat.start + mdat.headerSize) mdat.stop s := by
  intro s hs
  simp only [extractSamples, bind, Except.bind] at h
  split at h
  · exact absurd h (by simp)
  rename_i boxes heq1
  exact trafLoop_good cfg opts fileBytes _ moof.start moof.stop
    (mdat.start + mdat.headerSize) mdat.stop _ out h s hs

theorem findMdatAfter_mem (boxes : List Box) (b : Box)
    (h : findMdatAfter boxes = some b) : b ∈ boxes ∧ b.type = mdatT := by
  induction boxes with
  | nil => simp [findMdatAfter] at h
  | cons x rest ih =>
    simp only [findMdatAfter] at h
    split_ifs at h with h1 h2
    · cases h
      exact ⟨List.mem_cons_self _ _, h1⟩
    · rcases ih h with ⟨hm, ht⟩
      exact ⟨List.mem_cons_of_mem _ hm, ht⟩

theorem collectPairs_mem (boxes : List Box) (pr : Box × Box)
    (h : pr ∈ collectPairs boxes) : pr.2 ∈ boxes ∧ pr.2.type = mdatT := by
  induction boxes with
  | nil => simp [collectPairs] at h
  | cons x rest ih =>
    simp only [collectPairs] at h
    split_ifs at h with h1
    · split at h
      · rename_i m hm
        rcases List.mem_cons.mp h with hh | hh
        · subst hh
          rcases findMdatAfter_mem rest m hm with ⟨q1, q2⟩
          exact ⟨List.mem_cons_of_mem _ q1, q2⟩
        · rcases ih hh with ⟨q1, q2⟩
          exact ⟨List.mem_cons_of_mem _ q1, q2⟩
      · rcases ih h with ⟨q1, q2⟩
        exact ⟨List.mem_cons_of_mem _ q1, q2⟩
    · rcases ih h with ⟨q1, q2⟩
      exact ⟨List.mem_cons_of_mem _ q1, q2⟩

theorem pairLoop_good (cfg : TrackConfig) (opts : FlattenOptions) (fileBytes : List Nat)
    (pairs : List (Box × Box)) :
    ∀ (lastEnd intraOffset : Int) (out : List Sample),
      pairLoop cfg opts fileBytes pairs lastEnd intraOffset = .ok out →
      ∀ s ∈ out, ∃ pr ∈ pairs,
        GoodSample fileBytes (pr.2.start + pr.2.headerSize) pr.2.stop s := by
  induction pairs with
  | nil =>
    intro le io out h s hs
    simp only [pairLoop, Except.ok.injEq] at h
    rw [← h] at hs
    simp at hs
  | cons pr rest ih =>
    intro le io out h s hs
    obtain ⟨moof, mdat⟩ := pr
    simp only [pairLoop, bind, Except.bind] at h
    split at h
    · exact absurd h (by simp)
    rename_i raw heq1
    split at h
    · -- raw = []: recurse
      rcases ih le io out h s hs with ⟨q, hq, hg⟩
      exact ⟨q, List.mem_cons_of_mem _ hq, hg⟩
    rename_i r0 rtail
    split at h
    · exact absurd h (by simp)
    rename_i more heq2
    simp only [Except.ok.injEq] at h
    rw [← h] at hs
    rcases List.mem_append.mp hs with hh | hh
    · rcases List.mem_map.mp hh with ⟨t, ht, hteq⟩
      refine ⟨(moof, mdat), List.mem_cons_self _ _, ?_⟩
      rw [← hteq]
      exact GoodSample_shift _ _ _ _ _ _
        (extractSamples_good cfg opts fileBytes moof mdat _ heq1 t ht)
    · rcases ih _ _ more heq2 s hh with ⟨q, hq, hg⟩
      exact ⟨q, List.mem_cons_of_mem _ hq, hg⟩

theorem parse_good (cfg : TrackConfig) (opts : FlattenOptions) (fragment : List Nat)
    (out : List Sample) (h : parse cfg opts fragment = .ok out) :
    ∀ s ∈ out, ∃ boxes, parseBoxes fragment = .ok boxes ∧
      ∃ b ∈ boxes, b.type = mdatT ∧
        GoodSample fragment (b.start + b.headerSize) b.stop s := by
  intro s hs
  simp only [parse, bind, Except.bind] at h
  split at h
  · exact absurd h (by simp)
  rename_i boxes heq1
  by_cases h1 : (¬ (boxes.any (fun b => b.type = moofT)) = true)
  · rw [if_pos h1] at h
    exact absurd h (by simp)
  rw [if_neg h1] at h
  by_cases h2 : (collectPairs boxes).isEmpty = true
  · rw [if_pos h2] at h
    exact absurd h (by simp)
  rw [if_neg h2] at h
  rcases pairLoop_good cfg opts fragment (collectPairs boxes) 0 0 out h s hs
    with ⟨pr, hpr, hg⟩
  rcases collectPairs_mem boxes pr hpr with ⟨hm, ht⟩
  exact ⟨boxes, heq1, pr.2, hm, ht, hg⟩



theorem parseBoxesAux_stop_le (data : List Nat) (endPos : Nat) :
    ∀ (fuel off : Nat) (boxes : List Box),
      parseBoxesAux data endPos fuel off = .ok boxes →
      ∀ b ∈ boxes, b.stop ≤ endPos := by
  intro fuel
  induction fuel with
  | zero =>
    intro off boxes h b hb
    simp only [parseBoxesAux, Except.ok.injEq] at h
    rw [← h] at hb
    simp at hb
  | succ n ih =>
    intro off boxes h b hb
    simp only [parseBoxesAux] at h
    by_cases h1 : off + 8 ≤ endPos
    · rw [if_pos h1] at h
      split at h
      · exact absurd h (by simp)
      · simp only [Except.ok.injEq] at h
        rw [← h] at hb
        simp at hb
      · rename_i size headerSize hdec
        by_cases h2 : (size < headerSize ∨ endPos < off + size)
        · rw [if_pos h2] at h
          simp only [Except.ok.injEq] at h
          rw [← h] at hb
          simp at hb
        · rw [if_neg h2] at h
          split at h
          · exact absurd h (by simp)
          rename_i rest heq
          simp only [Except.ok.injEq] at h
          rw [← h] at hb
          rcases List.mem_cons.mp hb with hh | hh
          · subst hh
            dsimp only
            omega
          · exact ih (off + size) rest heq b hh
    · rw [if_neg h1] at h
      simp only [Except.ok.injEq] at h
      rw [← h] at hb
      simp at hb

theorem jsSlice_length (l : List Nat) (a b : Int) (h0 : 0 ≤ a) (hab : a ≤ b)
    (hb : b ≤ (l.length : Int)) : ((jsSlice l a b).length : Int) = b - a := by
  simp only [jsSlice, jsSliceNat]
  rw [if_neg (by omega), if_neg (by omega)]
  have h1 : min a (l.length : Int) = a := min_eq_left (by omega)
  have h2 : min b (l.length : Int) = b := min_eq_left hb
  rw [h1, h2]
  simp only [List.length_drop, List.length_take]
  omega

theorem GoodSample_data_length (frag : List Nat) (ps pe : Nat) (s : Sample)
    (hpe : pe ≤ frag.length) (hg : GoodSample frag ps pe s) :
    0 < s.size ∧ (s.data.length : Int) = s.size := by
  rcases hg with ⟨_, h2, c, hc1, hc2, hc3⟩
  refine ⟨h2, ?_⟩
  rw [hc3, jsSlice_length frag c (c + s.size) (by omega) (by omega) (by omega)]
  omega



theorem phase1Step_keeps (prev : Option Sample) (s : Sample) :
    (phase1Step prev s).size = s.size ∧ (phase1Step prev s).data = s.data := by
  unfold phase1Step
  cases prev <;> dsimp only <;> split_ifs <;> simp_all

theorem phase1Loop_keeps (l : List Sample) :
    ∀ prev, (phase1Loop prev l).map (fun s => (s.size, s.data)) =
      l.map (fun s => (s.size, s.data)) := by
  induction l with
  | nil => intro prev; rfl
  | cons x rest ih =>
    intro prev
    simp only [phase1Loop, List.map_cons]
    rw [ih]
    rcases phase1Step_keeps prev x with ⟨h1, h2⟩
    rw [h1, h2]

theorem phase2Loop_keeps_sd (pd : Option Int) (l : List Sample) :
    ((phase2Loop pd l).1).map (fun s => (s.size, s.data)) =
      l.map (fun s => (s.size, s.data)) := by
  have h := congrArg
    (List.map (fun t : Int × Int × Int × Bool × List Nat => (t.2.2.1, t.2.2.2.2)))
    (phase2Loop_keeps pd l)
  simpa [List.map_map, Function.comp] using h

theorem inferLoop_keeps (l : List Sample) :
    ∀ pd, (inferLoop pd l).map (fun s => (s.size, s.data)) =
      l.map (fun s => (s.size, s.data)) := by
  induction l with
  | nil => intro pd; rfl
  | cons x rest ih =>
    intro pd
    cases rest with
    | nil =>
      simp only [inferLoop]
      split_ifs <;> rfl
    | cons next rest2 =>
      simp only [inferLoop]
      split_ifs <;> simp [ih]

theorem fragLoop_keeps (bb : Bool) (frs : List (List Sample)) :
    ∀ off, (fragLoop bb frs off).map (fun s => (s.size, s.data)) =
      (frs.flatten).map (fun s => (s.size, s.data)) := by
  induction frs with
  | nil => intro off; rfl
  | cons f rest ih =>
    intro off
    simp only [fragLoop, List.flatten_cons, List.map_append]
    unfold inferDurationsWithinFile
    by_cases he : f.isEmpty = true
    · rw [if_pos he]
      have hf : f = [] := List.isEmpty_iff.mp he
      subst hf
      cases bb <;> simp [ih]
    · rw [if_neg he]
      cases bb <;> simp only [ih, List.map_map, List.map_append, cond_true, cond_false,
        Bool.false_eq_true, if_true, if_false]
      · simp [ih, inferLoop_keeps]
      · rw [show ((fun s : Sample => (s.size, s.data)) ∘ shiftSample off) =
            (fun s : Sample => (s.size, s.data)) from funext fun s => rfl]
        simp [ih, inferLoop_keeps]



theorem normalizeBase_true (samples : List Sample) : normalizeBase samples true = samples := rfl

theorem normalizeFragments_keeps (frs : List (List Sample)) (opts : FlattenOptions) :
    ((normalizeFragments frs opts).samples).map (fun s => (s.size, s.data)) =
      (frs.flatten).map (fun s => (s.size, s.data)) := by
  show ((phase2Loop none
    (phase1List (fragLoop (opts.normalizeAcrossFiles.getD true) frs 0) true)).1).map _ = _
  rw [phase2Loop_keeps_sd]
  show (phase1Loop none (normalizeBase _ true)).map _ = _
  rw [normalizeBase_true, phase1Loop_keeps, fragLoop_keeps]

theorem inferLoop_duration_pos (l : List Sample) :
    ∀ (pd : Option Int), (∀ s ∈ l, 0 ≤ s.duration) →
      ∀ s ∈ inferLoop pd l, 1 ≤ s.duration := by
  induction l with
  | nil =>
    intro pd h s hs
    simp [inferLoop] at hs
  | cons x rest ih =>
    intro pd h s hs
    cases rest with
    | nil =>
      simp only [inferLoop] at hs
      split_ifs at hs with hx
      · simp only [List.mem_singleton] at hs
        subst hs
        cases pd <;> dsimp only <;> omega
      · simp only [List.mem_singleton] at hs
        rw [hs]
        have := h x (List.mem_cons_self _ _)
        omega
    | cons next rest2 =>
      simp only [inferLoop] at hs
      by_cases hx : x.duration = 0
      · rw [if_pos hx] at hs
        rcases List.mem_cons.mp hs with hh | hh
        · subst hh
          dsimp only
          split_ifs <;> omega
        · exact ih _ (fun t ht => h t (List.mem_cons_of_mem _ ht)) s hh
      · rw [if_neg hx] at hs
        rcases List.mem_cons.mp hs with hh | hh
        · rw [hh]
          have := h x (List.mem_cons_self _ _)
          omega
        · exact ih _ (fun t ht => h t (List.mem_cons_of_mem _ ht)) s hh

theorem fragLoop_duration_pos (bb : Bool) (frs : List (List Sample)) :
    ∀ (off : Int), (∀ f ∈ frs, ∀ s ∈ f, 0 ≤ s.duration) →
      ∀ s ∈ fragLoop bb frs off, 1 ≤ s.duration := by
  induction frs with
  | nil =>
    intro off h s hs
    simp [fragLoop] at hs
  | cons f rest ih =>
    intro off h s hs
    simp only [fragLoop] at hs
    have hf : ∀ s ∈ (inferDurationsWithinFile f).1, 1 ≤ s.duration := by
      intro t ht
      unfold inferDurationsWithinFile at ht
      split_ifs at ht with he
      · simp at ht
      · exact inferLoop_duration_pos f none (h f (List.mem_cons_self _ _)) t ht
    by_cases hbb : bb = true
    · rw [if_pos hbb] at hs
      rcases List.mem_append.mp hs with hh | hh
      · rcases List.mem_map.mp hh with ⟨t, ht, hteq⟩
        have := hf t ht
        rw [← hteq]
        simpa [shiftSample] using this
      · exact ih _ (fun g hg => h g (List.mem_cons_of_mem _ hg)) s hh
    · rw [if_neg hbb] at hs
      rcases List.mem_append.mp hs with hh | hh
      · exact hf s hh
      · exact ih _ (fun g hg => h g (List.mem_cons_of_mem _ hg)) s hh

theorem phase1Step_duration (prev : Option Sample) (s : Sample) :
    (phase1Step prev s).duration = if s.duration < 0 then 0 else s.duration := by
  unfold phase1Step
  cases prev <;> dsimp only <;> split_ifs <;> simp_all

theorem phase1Loop_duration_pos (l : List Sample) :
    ∀ prev, (∀ s ∈ l, 1 ≤ s.duration) → ∀ s ∈ phase1Loop prev l, 1 ≤ s.duration := by
  induction l with
  | nil =>
    intro prev h s hs
    simp [phase1Loop] at hs
  | cons x rest ih =>
    intro prev h s hs
    simp only [phase1Loop, List.mem_cons] at hs
    rcases hs with hh | hh
    · subst hh
      rw [phase1Step_duration]
      have := h x (List.mem_cons_self _ _)
      split_ifs <;> omega
    · exact ih _ (fun t ht => h t (List.mem_cons_of_mem _ ht)) s hh



/-- C9: in a successful pipeline run every fragment parses to samples whose
durations are non-negative, and `normalizeFragments` over such sample lists
never reports a discontinuity: Phase A repairs every zero duration to at least
one media unit before `normalize` runs, so the Phase C flagging branch is
unreachable and `discontinuityDetected` is always false. -/
theorem pipeline_no_discontinuity (cfg : TrackConfig) (opts : FlattenOptions)
    (outs : List (List Sample))
    (h : ∀ out ∈ outs, ∃ frag, parse cfg opts frag = .ok out) :
    (normalizeFragments outs opts).discontinuityDetected = false := by
  have hdur : ∀ out ∈ outs, ∀ s ∈ out, 0 ≤ s.duration := by
    intro out ho s hs
    rcases h out ho with ⟨frag, hp⟩
    rcases parse_good cfg opts frag out hp s hs with ⟨boxes, _, b, _, _, hg⟩
    exact hg.1
  have hpos := fragLoop_duration_pos (opts.normalizeAcrossFiles.getD true) outs 0 hdur
  by_contra hb
  have ht : (normalizeFragments outs opts).discontinuityDetected = true := by
    cases hD : (normalizeFragments outs opts).discontinuityDetected
    · exact absurd hD hb
    · rfl
  have ht2 : (phase2Loop none
      (phase1List (fragLoop (opts.normalizeAcrossFiles.getD true) outs 0) true)).2 = true := ht
  rcases (phase2Loop_flag none _).mp ht2 with ⟨i, s, next, h1, h2, hd0, hgap⟩
  have hsmem : s ∈ phase1List (fragLoop (opts.normalizeAcrossFiles.getD true) outs 0) true :=
    List.get?_mem h1
  have hge : 1 ≤ s.duration := by
    have := phase1Loop_duration_pos
      (normalizeBase (fragLoop (opts.normalizeAcrossFiles.getD true) outs 0) true) none
    rw [normalizeBase_true] at this
    exact this hpos s hsmem
  omega

/-- Witness for C9 on a concrete parsed fragment. -/
theorem pipeline_no_discontinuity_witness :
    (∀ out ∈ [[sample89]], ∃ frag, parse cfgA {} frag = .ok out) ∧
    (normalizeFragments [[sample89]] ({} : FlattenOptions)).discontinuityDetected = false := by
  have hp : parse cfgA {} frag89 = .ok [sample89] := by rfl
  refine ⟨?_, ?_⟩
  · intro out ho
    simp only [List.mem_singleton] at ho
    exact ⟨frag89, by rw [ho]; exact hp⟩
  · exact pipeline_no_discontinuity cfgA {} [[sample89]]
      (fun out ho => ⟨frag89, by simp only [List.mem_singleton] at ho; rw [ho]; exact hp⟩)



/-- C10: every sample `FragmentParser.parse` emits has positive `size`, data
of exactly `size` bytes sliced from inside an mdat payload of the fragment;
the normalizer stages preserve every sample's `(size, data)` pair; and under
the resulting `size = |data|` equality the builder's mdat payload size equals
the sum of the stsz sizes. -/
theorem sample_size_data_invariant :
    (∀ (cfg : TrackConfig) (opts : FlattenOptions) (frag : List Nat) (out : List Sample),
      parse cfg opts frag = .ok out → ∀ s ∈ out,
        0 < s.size ∧ (s.data.length : Int) = s.size ∧
        ∃ boxes, parseBoxes frag = .ok boxes ∧ ∃ b ∈ boxes, b.type = mdatT ∧
          GoodSample frag (b.start + b.headerSize) b.stop s) ∧
    (∀ (frs : List (List Sample)) (opts : FlattenOptions),
      ((normalizeFragments frs opts).samples).map (fun s => (s.size, s.data)) =
        (frs.flatten).map (fun s => (s.size, s.data))) ∧
    (∀ samples : List Sample, (∀ s ∈ samples, s.size = (s.data.length : Int)) →
      (mdatPayloadSize samples : Int) = (sizesOf samples).sum) := by
  refine ⟨?_, normalizeFragments_keeps, ?_⟩
  · intro cfg opts frag out h s hs
    rcases parse_good cfg opts frag out h s hs with ⟨boxes, hb, b, hbm, hbt, hg⟩
    have hb2 : parseBoxesAux frag frag.length (frag.length + 1) 0 = .ok boxes := hb
    have hstop : b.stop ≤ frag.length :=
      parseBoxesAux_stop_le frag frag.length (frag.length + 1) 0 boxes hb2 b hbm
    rcases GoodSample_data_length frag _ _ s hstop hg with ⟨q1, q2⟩
    exact ⟨q1, q2, boxes, hb, b, hbm, hbt, hg⟩
  · intro samples h
    induction samples with
    | nil => rfl
    | cons x rest ih =>
      have hx := h x (List.mem_cons_self _ _)
      have hr := ih (fun s hs => h s (List.mem_cons_of_mem _ hs))
      simp only [mdatPayloadSize, sizesOf, List.map_cons, List.sum_cons] at *
      push_cast at *
      omega

/-- Witness for C10 on the concrete fragment. -/
theorem sample_size_data_invariant_witness :
    parse cfgA {} frag89 = .ok [sample89] ∧
    0 < sample89.size ∧ (sample89.data.length : Int) = sample89.size := by
  have hp : parse cfgA {} frag89 = .ok [sample89] := by rfl
  have h := sample_size_data_invariant.1 cfgA {} frag89 [sample89] hp sample89
    (List.mem_singleton.mpr rfl)
  exact ⟨hp, h.1, h.2.1⟩

theorem length_box (t p : List Nat) (ht : t.length = 4) : (box t p).length = 8 + p.length := by
  simp [box, ht]
  omega

theorem length_fullBox (t : List Nat) (v f : Int) (p : List Nat) (ht : t.length = 4) :
    (fullBox t v f p).length = 12 + p.length := by
  simp [fullBox, box, ht]
  omega

theorem length_flat_entries (entries : List (Nat × Int)) :
    ((entries.map fun e => writeU32 ((e.1 : Nat) : Int) ++ writeU32 e.2).flatten).length =
      8 * entries.length := by
  induction entries with
  | nil => rfl
  | cons e rest ih =>
    simp only [List.map_cons, List.flatten_cons, List.length_append, ih]
    simp
    omega

theorem length_sttsBox (durations : List Int) :
    (sttsBox durations).length = 16 + 8 * (rle durations).length := by
  unfold sttsBox
  rw [length_fullBox _ _ _ _ (by rfl)]
  rw [List.length_append, length_flat_entries]
  simp
  omega

theorem length_stszBox (sizes : List Int) :
    (stszBox sizes).length = 20 + 4 * sizes.length := by
  unfold stszBox
  rw [length_fullBox _ _ _ _ (by rfl)]
  have : ((sizes.map fun s => writeU32 s).flatten).length = 4 * sizes.length := by
    induction sizes with
    | nil => rfl
    | cons x rest ih =>
      simp only [List.map_cons, List.flatten_cons, List.length_append, ih]
      simp
      omega
  rw [List.length_append, this]
  simp
  omega

theorem length_stcoBox (offsets : List Nat) (m : Bool) :
    (stcoBox offsets m).length = 16 + offsets.length * (if m then 8 else 4) := by
  unfold stcoBox
  cases m with
  | false =>
    rw [if_neg (by simp)]
    rw [length_fullBox _ _ _ _ (by rfl)]
    have : ((offsets.map fun o => writeU32 ((o : Nat) : Int)).flatten).length =
        4 * offsets.length := by
      induction offsets with
      | nil => rfl
      | cons x rest ih =>
        simp only [List.map_cons, List.flatten_cons, List.length_append, ih]
        simp
        omega
    rw [List.length_append, this]
    simp
    omega
  | true =>
    rw [if_pos rfl]
    rw [length_fullBox _ _ _ _ (by rfl)]
    have : ((offsets.map writeU64).flatten).length = 8 * offsets.length := by
      induction offsets with
      | nil => rfl
      | cons x rest ih =>
        simp only [List.map_cons, List.flatten_cons, List.length_append, ih]
        simp
        omega
    rw [List.length_append, this]
    simp
    omega



theorem length_mvhd (ts d : Int) : (mvhd ts d).length = 108 := by
  simp [mvhd, fullBox, box, mvhdT]

theorem length_tkhd (tid d w h : Int) : (tkhd tid d w h).length = 92 := by
  simp [tkhd, fullBox, box, tkhdT]

theorem length_mdhd (ts d : Int) : (mdhd ts d).length = 32 := by
  simp [mdhd, fullBox, box, mdhdT]

theorem length_hdlrBox : hdlrBox.length = 45 := by
  simp [hdlrBox, fullBox, box, hdlrT, videT, videoHandlerName]

theorem length_vmhdBox : vmhdBox.length = 20 := by
  simp [vmhdBox, fullBox, box, vmhdT]

theorem length_drefBox : drefBox.length = 28 := by
  simp [drefBox, fullBox, box, drefT, urlT]

theorem length_stscBox : stscBox.length = 28 := by
  simp [stscBox, fullBox, box, stscT]

theorem length_minimalFtyp : minimalFtyp.length = 32 := by
  simp [minimalFtyp, box, ftypT, isomT, iso2T, avc1T, mp41T]

theorem length_stblBox (stsd stts : List Nat) (ctts stss : Option (List Nat))
    (stsc stsz stco : List Nat) :
    (stblBox stsd stts ctts stss stsc stsz stco).length =
      8 + stsd.length + stts.length + (ctts.elim 0 List.length) +
      (stss.elim 0 List.length) + stsc.length + stsz.length + stco.length := by
  cases ctts <;> cases stss <;>
    simp [stblBox, box, stblT, Option.elim] <;> omega

theorem length_moovFor (cfg : TrackConfig) (samples : List Sample) (offsets : List Nat)
    (m : Bool) :
    (moovFor cfg samples offsets m).length =
      401 + cfg.stsd.length + (sttsBox (durationsOf samples)).length +
      ((cttsBox (ctsOffsetsOf samples)).elim 0 List.length) +
      ((stssBox (syncSamplesOf samples)).elim 0 List.length) +
      (stszBox (sizesOf samples)).length + (stcoBox offsets m).length := by
  unfold moovFor
  rw [length_box _ _ (by rfl), List.length_append, length_mvhd,
    length_box _ _ (by rfl), List.length_append, length_tkhd,
    length_box _ _ (by rfl), List.length_append, List.length_append, length_mdhd,
    length_hdlrBox,
    length_box _ _ (by rfl), List.length_append, List.length_append, length_vmhdBox,
    length_box _ _ (by rfl), length_drefBox,
    length_stblBox]
  rw [length_stscBox]
  omega



theorem offsetsFrom_length (l : List Sample) : ∀ f, (offsetsFrom f l).length = l.length := by
  induction l with
  | nil => intro f; rfl
  | cons x rest ih => intro f; simp [offsetsFrom, ih]

theorem offsetsFrom_get (l : List Sample) :
    ∀ (f : Nat) (i : Nat) (h : i < l.length),
      (offsetsFrom f l).get ⟨i, by rw [offsetsFrom_length]; exact h⟩ =
        f + ((l.take i).map (fun s => s.data.length)).sum := by
  induction l with
  | nil => intro f i h; simp at h
  | cons x rest ih =>
    intro f i h
    cases i with
    | zero => simp [offsetsFrom]
    | succ j =>
      have hj : j < rest.length := by simpa using h
      have := ih (f + x.data.length) j hj
      simp only [offsetsFrom, List.get_cons_succ, List.take_succ_cons, List.map_cons,
        List.sum_cons]
      rw [this]
      omega

theorem offsetsFrom_shift (l : List Sample) :
    ∀ (f c : Nat), offsetsFrom (f + c) l = (offsetsFrom f l).map (fun o => o + c) := by
  induction l with
  | nil => intro f c; rfl
  | cons x rest ih =>
    intro f c
    simp only [offsetsFrom, List.map_cons]
    congr 1
    rw [show f + c + x.data.length = (f + x.data.length) + c by omega]
    exact ih _ c

theorem offsetsFrom_le (l : List Sample) :
    ∀ f, ∀ o ∈ offsetsFrom f l, o ≤ f + (l.map (fun s => s.data.length)).sum := by
  induction l with
  | nil => intro f o ho; simp [offsetsFrom] at ho
  | cons x rest ih =>
    intro f o ho
    simp only [offsetsFrom, List.mem_cons] at ho
    rcases ho with h | h
    · subst h; simp
    · have := ih (f + x.data.length) o h
      simp only [List.map_cons, List.sum_cons]
      omega

theorem le_maxOffsetOf (l : List Nat) : ∀ o ∈ l, o ≤ maxOffsetOf l := by
  have key : ∀ (l : List Nat) (a : Nat), a ≤ l.foldl (fun m o => if m < o then o else m) a ∧
      ∀ o ∈ l, o ≤ l.foldl (fun m o => if m < o then o else m) a := by
    intro l
    induction l with
    | nil => intro a; exact ⟨le_refl a, by simp⟩
    | cons x rest ih =>
      intro a
      constructor
      · have h1 := (ih (if a < x then x else a)).1
        refine le_trans ?_ h1
        split_ifs <;> omega
      · intro o ho
        rcases List.mem_cons.mp ho with hh | hh
        · subst hh
          have h1 := (ih (if a < o then o else a)).1
          refine le_trans ?_ h1
          split_ifs <;> omega
        · exact (ih _).2 o hh
  intro o ho
  exact (key l 0).2 o ho

theorem maxOffsetOf_map_add (l : List Nat) (c : Nat) (hne : l ≠ []) :
    maxOffsetOf (l.map (fun o => o + c)) = maxOffsetOf l + c := by
  have key : ∀ (l : List Nat) (a : Nat),
      (l.map (fun o => o + c)).foldl (fun m o => if m < o then o else m) (a + c) =
        l.foldl (fun m o => if m < o then o else m) a + c := by
    intro l
    induction l with
    | nil => intro a; rfl
    | cons x rest ih =>
      intro a
      simp only [List.map_cons, List.foldl_cons]
      rw [show (if a + c < x + c then x + c else a + c) =
        (if a < x then x else a) + c by split_ifs <;> omega]
      exact ih _
  cases l with
  | nil => exact absurd rfl hne
  | cons x rest =>
    show (List.foldl _ (if 0 < x + c then x + c else 0) _) = _
    rw [show (if 0 < x + c then x + c else 0) = (if (0:Nat) < x then x else 0) + c by
      split_ifs <;> omega]
    exact key rest _



theorem emittedChunkOffsets_length (cfg : TrackConfig) (samples : List Sample) :
    (emittedChunkOffsets cfg samples).length = samples.length := by
  show (offsetsFrom _ samples).length = samples.length
  exact offsetsFrom_length samples _

theorem emittedMoov_length (cfg : TrackConfig) (samples : List Sample) :
    (emittedMoov cfg samples).length =
      (moovFor cfg samples (List.replicate samples.length 0)
        (buildUseCo64 cfg samples)).length := by
  unfold emittedMoov
  rw [length_moovFor, length_moovFor, length_stcoBox, length_stcoBox,
    emittedChunkOffsets_length, List.length_replicate]

theorem sum_sizes_eq (l : List Sample) (hl : ∀ s ∈ l, s.size = (s.data.length : Int)) :
    (l.map (fun s => s.size)).sum = (((l.map (fun s => s.data.length)).sum : Nat) : Int) := by
  induction l with
  | nil => rfl
  | cons x rest ih =>
    simp only [List.map_cons, List.sum_cons]
    rw [hl x (List.mem_cons_self _ _), ih (fun t ht => hl t (List.mem_cons_of_mem _ ht))]
    push_cast
    ring

/-- C1: the i-th chunk offset written into the emitted stco/co64 table equals
`|ftyp| + |moov| + mdatHeaderSize + Σ_{j<i} sample[j].size`, where `|moov|` is
the emitted moov and the sample sizes agree with their data lengths (as the
pipeline guarantees, see the C10 theorem). -/
theorem chunk_offsets_consistent (cfg : TrackConfig) (samples : List Sample)
    (hsz : ∀ s ∈ samples, s.size = (s.data.length : Int)) (i : Nat)
    (hi : i < (emittedChunkOffsets cfg samples).length) :
    (((emittedChunkOffsets cfg samples).get ⟨i, hi⟩ : Nat) : Int) =
      ((ftypBoxOf cfg).length : Int) + ((emittedMoov cfg samples).length : Int) +
      (mdatHeaderSize samples : Int) + ((samples.take i).map (fun s => s.size)).sum := by
  have hi' : i < samples.length := by
    rw [← emittedChunkOffsets_length cfg samples]
    exact hi
  have he : emittedChunkOffsets cfg samples =
      offsetsFrom ((ftypBoxOf cfg).length +
        (moovFor cfg samples (List.replicate samples.length 0)
          (buildUseCo64 cfg samples)).length + mdatHeaderSize samples) samples := rfl
  have hget := offsetsFrom_get samples
    ((ftypBoxOf cfg).length +
      (moovFor cfg samples (List.replicate samples.length 0)
        (buildUseCo64 cfg samples)).length + mdatHeaderSize samples) i hi'
  have hval : (emittedChunkOffsets cfg samples).get ⟨i, hi⟩ =
      (ftypBoxOf cfg).length +
        (moovFor cfg samples (List.replicate samples.length 0)
          (buildUseCo64 cfg samples)).length + mdatHeaderSize samples +
        ((samples.take i).map (fun s => s.data.length)).sum := by
    rw [← hget]
    congr 1
  rw [hval]
  have hmoov := emittedMoov_length cfg samples
  have hsum := sum_sizes_eq (samples.take i)
    (fun s hs => hsz s (List.take_subset i samples hs))
  rw [hsum, hmoov]
  push_cast
  ring

/-- Witness for C1: the single chunk offset of a one-sample build. -/
theorem chunk_offsets_consistent_witness :
    (∀ s ∈ [sampA], s.size = (s.data.length : Int)) ∧
    0 < (emittedChunkOffsets cfgA [sampA]).length ∧
    (((emittedChunkOffsets cfgA [sampA]).get ⟨0, by decide⟩ : Nat) : Int) =
      ((ftypBoxOf cfgA).length : Int) + ((emittedMoov cfgA [sampA]).length : Int) +
      (mdatHeaderSize [sampA] : Int) + (([sampA].take 0).map (fun s => s.size)).sum :=
  ⟨by decide, by decide, chunk_offsets_consistent cfgA [sampA] (by decide) 0 (by decide)⟩



theorem chunkOffsetsFor_modes (cfg : TrackConfig) (samples : List Sample) :
    chunkOffsetsFor cfg samples true =
      (chunkOffsetsFor cfg samples false).map (fun o => o + 4 * samples.length) := by
  show offsetsFrom ((ftypBoxOf cfg).length +
      (moovFor cfg samples (List.replicate samples.length 0) true).length +
      mdatHeaderSize samples) samples = _
  have hlen : (ftypBoxOf cfg).length +
      (moovFor cfg samples (List.replicate samples.length 0) true).length +
      mdatHeaderSize samples =
      ((ftypBoxOf cfg).length +
        (moovFor cfg samples (List.replicate samples.length 0) false).length +
        mdatHeaderSize samples) + 4 * samples.length := by
    rw [length_moovFor, length_moovFor, length_stcoBox, length_stcoBox,
      List.length_replicate]
    simp
    omega
  rw [hlen, offsetsFrom_shift]
  rfl

/-- C2 (amended): `stco` is chosen exactly when the maximum (last-sample)
chunk offset stays below 2^32 - the first-sample offset being below 2^32 does
not force `stco` - and when co64 is chosen every offset is bounded by the end
of the emitted file, hence fits in 64 bits whenever the file end does. -/
theorem co64_promotion (cfg : TrackConfig) (samples : List Sample) :
    (maxOffsetOf (emittedChunkOffsets cfg samples) < 4294967296 →
      buildUseCo64 cfg samples = false) ∧
    ((∃ o ∈ emittedChunkOffsets cfg samples, 4294967296 ≤ o) →
      buildUseCo64 cfg samples = true) ∧
    (∀ o ∈ emittedChunkOffsets cfg samples,
      o ≤ (ftypBoxOf cfg).length + (emittedMoov cfg samples).length +
        mdatHeaderSize samples + mdatPayloadSize samples) ∧
    ((ftypBoxOf cfg).length + (emittedMoov cfg samples).length + mdatHeaderSize samples +
        mdatPayloadSize samples < 18446744073709551616 →
      ∀ o ∈ emittedChunkOffsets cfg samples, o < 18446744073709551616) := by
  have hb : ∀ o ∈ emittedChunkOffsets cfg samples,
      o ≤ (ftypBoxOf cfg).length + (emittedMoov cfg samples).length +
        mdatHeaderSize samples + mdatPayloadSize samples := by
    intro o ho
    have he : emittedChunkOffsets cfg samples =
        offsetsFrom ((ftypBoxOf cfg).length +
          (moovFor cfg samples (List.replicate samples.length 0)
            (buildUseCo64 cfg samples)).length + mdatHeaderSize samples) samples := rfl
    have hle := offsetsFrom_le samples ((ftypBoxOf cfg).length +
      (moovFor cfg samples (List.replicate samples.length 0)
        (buildUseCo64 cfg samples)).length + mdatHeaderSize samples) o (he ▸ ho)
    rw [emittedMoov_length]
    exact hle
  refine ⟨?_, ?_, hb, fun hlt o ho => lt_of_le_of_lt (hb o ho) hlt⟩
  · intro hmax
    by_contra hm
    have hm' : buildUseCo64 cfg samples = true := by
      cases h : buildUseCo64 cfg samples
      · exact absurd h hm
      · rfl
    have h0 : 4294967296 ≤ maxOffsetOf (chunkOffsetsFor cfg samples false) := by
      have h2 := hm'
      unfold buildUseCo64 at h2
      exact of_decide_eq_true h2
    have hemit : emittedChunkOffsets cfg samples = chunkOffsetsFor cfg samples true := by
      unfold emittedChunkOffsets
      rw [hm']
    cases hsamples : samples with
    | nil =>
      rw [hsamples] at h0
      simp [chunkOffsetsFor, offsetsFrom, maxOffsetOf] at h0
    | cons s0 rest =>
      have hne : chunkOffsetsFor cfg samples false ≠ [] := by
        rw [hsamples]
        show offsetsFrom _ _ ≠ []
        simp [offsetsFrom]
      have hrel := chunkOffsetsFor_modes cfg samples
      have heq : maxOffsetOf (emittedChunkOffsets cfg samples) =
          maxOffsetOf (chunkOffsetsFor cfg samples false) + 4 * samples.length := by
        rw [hemit, hrel, maxOffsetOf_map_add _ _ hne]
      omega
  · rintro ⟨o, ho, hge⟩
    by_contra hm
    have hm' : buildUseCo64 cfg samples = false := by
      cases h : buildUseCo64 cfg samples
      · rfl
      · exact absurd h hm
    have hemit : emittedChunkOffsets cfg samples = chunkOffsetsFor cfg samples false := by
      unfold emittedChunkOffsets
      rw [hm']
    have h0 : ¬ (4294967296 ≤ maxOffsetOf (chunkOffsetsFor cfg samples false)) := by
      have h2 := hm'
      unfold buildUseCo64 at h2
      exact of_decide_eq_false h2
    have hle := le_maxOffsetOf (chunkOffsetsFor cfg samples false) o (hemit ▸ ho)
    omega

theorem big_data_length : (bigS.data).length = 4294967296 :=
  List.length_replicate _ _

theorem co64_cex_hdr : mdatHeaderSize [bigS, smallS] = 16 := by
  have hp : mdatPayloadSize [bigS, smallS] = 4294967297 := by
    show ([bigS, smallS].map fun s => s.data.length).sum = 4294967297
    rw [List.map_cons, List.map_cons, List.map_nil, big_data_length]
    rfl
  rw [mdatHeaderSize, needsLargeMdat, hp]
  rfl

theorem co64_cex_moov32 : (moovFor cfgA [bigS, smallS]
    (List.replicate ([bigS, smallS] : List Sample).length 0) false).length = 485 := by
  decide



theorem offsetsFrom_pair (f : Nat) (a b : Sample) :
    offsetsFrom f [a, b] = [f, f + a.data.length] := rfl

theorem co64_cex_offs32 : chunkOffsetsFor cfgA [bigS, smallS] false = [533, 4294967829] := by
  show offsetsFrom ((ftypBoxOf cfgA).length +
    (moovFor cfgA [bigS, smallS]
      (List.replicate ([bigS, smallS] : List Sample).length 0) false).length +
    mdatHeaderSize [bigS, smallS]) [bigS, smallS] = _
  rw [co64_cex_moov32, co64_cex_hdr, show (ftypBoxOf cfgA).length = 32 from by decide]
  rw [offsetsFrom_pair, big_data_length]



theorem co64_cex_use : buildUseCo64 cfgA [bigS, smallS] = true := by
  unfold buildUseCo64
  rw [co64_cex_offs32]
  rfl

theorem co64_cex_moov64 : (moovFor cfgA [bigS, smallS]
    (List.replicate ([bigS, smallS] : List Sample).length 0) true).length = 493 := by
  decide

theorem co64_cex_offs64 : chunkOffsetsFor cfgA [bigS, smallS] true = [541, 4294967837] := by
  show offsetsFrom ((ftypBoxOf cfgA).length +
    (moovFor cfgA [bigS, smallS]
      (List.replicate ([bigS, smallS] : List Sample).length 0) true).length +
    mdatHeaderSize [bigS, smallS]) [bigS, smallS] = _
  rw [co64_cex_moov64, co64_cex_hdr, show (ftypBoxOf cfgA).length = 32 from by decide]
  rw [offsetsFrom_pair, big_data_length]

/-- C2 counterexample: a 4 GiB first sample followed by a 1-byte sample. The
final first-sample chunk offset (541) is far below 2^32, yet the builder
promotes to co64 because the second (maximum) offset passes 2^32 - refuting
"if the final first-sample chunk offset is < 2^32 then stco is used". -/
theorem co64_first_offset_cex :
    buildUseCo64 cfgA [bigS, smallS] = true ∧
    (emittedChunkOffsets cfgA [bigS, smallS]).get? 0 = some 541 ∧
    (541 : Nat) < 4294967296 := by
  refine ⟨co64_cex_use, ?_, by norm_num⟩
  show (chunkOffsetsFor cfgA [bigS, smallS] (buildUseCo64 cfgA [bigS, smallS])).get? 0 = _
  rw [co64_cex_use, co64_cex_offs64]
  rfl

/-- Witness for C2 at a one-sample build whose offsets stay below 2^32. -/
theorem co64_promotion_witness :
    maxOffsetOf (emittedChunkOffsets cfgA [sampA]) < 4294967296 ∧
    buildUseCo64 cfgA [sampA] = false :=
  ⟨by decide, (co64_promotion cfgA [sampA]).1 (by decide)⟩

end Remux
